import Mathlib

/-! # Batch collection tasks of `moniter/async`

A shallow embedding of `async/task.go` and `async/manager.go`, and of the line parsers
of `target/cpu.go`, `target/memory.go` and `target/io.go`.

* A Go channel is a value `Chan` (buffered contents, capacity, closed flag) with the
  language's send / receive / close rules: a send on a closed channel panics, a send on a
  full channel blocks, a receive on a closed and drained channel yields the zero value.
* The items are Go `interface{}` values; `default` plays the part of `nil`.
* The goroutine started by `Task.Async` is the step function `Sys.step`: one call handles
  one ready `select` case. Which case is taken is the scheduler's choice, so a run of the
  program is a list of `Action`s (publisher sends, close requests, loop cases).
* The consumer is a function with its own state `σ` that either returns or panics. Every
  invocation is recorded in the ghost `trace` of the system, together with the
  acknowledgment of a close request, in the order in which they happen.
* The slice capacities passed to `make` have no observable effect and are left out.
* Channels are buffered ones, as all channels of the package are when made through the
  accessors; the rendezvous of a channel of capacity 0 is not modelled (a send to it is
  reported as blocked). A consumer is a total function: one that never returns is not
  modelled.
-/

namespace Moniter

/-! ## Channels -/

/-- A buffered Go channel: the queued values (oldest first), `cap(c)` and whether
`close(c)` has been executed. -/
structure Chan (β : Type) where
  buf : List β
  cap : Nat
  closed : Bool
deriving DecidableEq, Repr

/-- The result of a send statement `c <- v`. -/
inductive Send (β : Type) where
  | sent (c : Chan β)
  | blocked
  | panicked
deriving DecidableEq, Repr

namespace Chan

/-- The expression `make(chan T, n)`. -/
def make {β : Type} (n : Nat) : Chan β := ⟨[], n, false⟩

/-- The statement `c <- v`: panics on a closed channel, blocks while the buffer is full. -/
def send {β : Type} (c : Chan β) (v : β) : Send β :=
  if c.closed then Send.panicked
  else if c.buf.length < c.cap then Send.sent { c with buf := c.buf ++ [v] }
  else Send.blocked

/-- The expression `<-c`. `none`: nothing is ready, the receive blocks (in a `select`
the case is not ready). `some (some v, c1)`: `v` was dequeued. `some (none, c)`: the
channel is closed and drained, the receive yields the zero value. -/
def recv {β : Type} (c : Chan β) : Option (Option β × Chan β) :=
  match c.buf with
  | v :: rest => some (some v, { c with buf := rest })
  | [] => if c.closed then some (none, c) else none

/-- The statement `close(c)`; `none` is the panic on an already closed channel. -/
def close {β : Type} (c : Chan β) : Option (Chan β) :=
  if c.closed then none else some { c with closed := true }

/-- The loop `for v := range c` on a closed channel: every queued value, oldest first,
and the drained channel. -/
def drain {β : Type} (c : Chan β) : List β × Chan β :=
  (c.buf, { c with buf := [] })

end Chan

/-! ## Tasks -/

/-- How a call of a Go function ends. -/
inductive Outcome where
  | returned
  | panicked
deriving DecidableEq, Repr

/-- The `select` cases of the loop in `Task.Async`. -/
inductive Event where
  | collect
  | tick
  | close
deriving DecidableEq, Repr

/-- The struct `Task`. `consumer` is `none` while the field is `nil`. -/
structure Task (α σ : Type) where
  name : String
  collectTime : Nat
  channelLen : Nat
  collect : Chan α
  data : List α
  maxDataLen : Int
  consumer : Option (List α → σ → Outcome × σ)
  close : Chan (Chan Unit)

/-- The function `newTask`. -/
def newTask {α σ : Type} (name : String) (channelLen : Nat) (collectTime : Nat)
    (maxDataLen : Int) : Task α σ :=
  { name := name
    collectTime := collectTime
    channelLen := channelLen
    collect := Chan.make channelLen
    data := []
    maxDataLen := maxDataLen
    consumer := none
    close := Chan.make 1 }

/-- The method `SetConsumer`. -/
def Task.SetConsumer {α σ : Type} (t : Task α σ) (consumer : List α → σ → Outcome × σ) :
    Task α σ :=
  { t with consumer := some consumer }

/-- The result of `Task.Pub`: it returns `err` (`none` is `nil`), or it never returns
because the send blocks. -/
inductive PubResult (α σ : Type) where
  | returned (err : Option String) (t : Task α σ)
  | blocked

/-- The method `Pub`: the send `t.collect <- b` under a deferred `recover` that turns the
panic of a send on a closed channel into the error `"recover"`. -/
def Task.Pub {α σ : Type} (t : Task α σ) (b : α) : PubResult α σ :=
  match t.collect.send b with
  | Send.sent c => PubResult.returned none { t with collect := c }
  | Send.panicked => PubResult.returned (some "recover") t
  | Send.blocked => PubResult.blocked

/-! ## The loop of `Task.Async` -/

/-- What the loop does to the outside, in order: a consumer invocation (with the `select`
case that made it, the batch and how the call ended) and the acknowledgment of a close
request (with the acknowledgment channel after `cc <- struct{}{}` and `close(cc)`). -/
inductive Effect (α : Type) where
  | call (src : Event) (batch : List α) (res : Outcome)
  | ack (cc : Chan Unit)
deriving DecidableEq, Repr

/-- The state of the goroutine started by `Task.Async`. -/
inductive Status where
  | running
  | returned
  | crashed
  | blocked
deriving DecidableEq, Repr

/-- A task with its loop: the struct, the state the consumer acts on, the state of the
goroutine and the effects so far. -/
structure Sys (α σ : Type) where
  task : Task α σ
  world : σ
  status : Status
  trace : List (Effect α)

/-- The method `Async` on a task: the goroutine is started, nothing has happened yet. -/
def Task.Async {α σ : Type} (t : Task α σ) (w : σ) : Sys α σ :=
  { task := t, world := w, status := Status.running, trace := [] }

namespace Sys

variable {α σ : Type}

/-- The bare call `t.consumer(data)`: calling a `nil` func panics, otherwise the consumer
runs and returns or panics. -/
def consumerCall (s : Sys α σ) (src : Event) (data : List α) : Outcome × Sys α σ :=
  match s.task.consumer with
  | none => (Outcome.panicked, s)
  | some f =>
    let r := f data s.world
    (r.1, { s with world := r.2, trace := s.trace ++ [Effect.call src data r.1] })

/-- The method `callConsumer`: the call under a deferred `recover` with an empty handler,
so a panic ends here and the method returns. -/
def callConsumer (s : Sys α σ) (src : Event) (data : List α) : Outcome × Sys α σ :=
  match s.consumerCall src data with
  | (Outcome.returned, s1) => (Outcome.returned, s1)
  | (Outcome.panicked, s1) => (Outcome.returned, s1)

/-- Sequencing inside the loop body: a panic that reaches the body ends the goroutine in
the deferred `recover` of `Async`. -/
def resume (r : Outcome × Sys α σ) (k : Sys α σ → Sys α σ) : Sys α σ :=
  match r with
  | (Outcome.returned, s1) => k s1
  | (Outcome.panicked, s1) => { s1 with status := Status.crashed }

/-- The `case v := <-t.collect` branch, after `v` was received. -/
def onCollect (s : Sys α σ) (v : α) (c : Chan α) : Sys α σ :=
  let s1 : Sys α σ := { s with task := { s.task with collect := c, data := s.task.data ++ [v] } }
  if 0 < s1.task.maxDataLen ∧ s1.task.maxDataLen ≤ (s1.task.data.length : Int) then
    let tt := s1.task.data
    let s2 : Sys α σ := { s1 with task := { s1.task with data := [] } }
    if 0 < tt.length then resume (s2.callConsumer Event.collect tt) id else s2
  else s1

/-- The `case <-t1` branch. -/
def onTick (s : Sys α σ) : Sys α σ :=
  let tt := s.task.data
  let s1 : Sys α σ := { s with task := { s.task with data := [] } }
  if 0 < tt.length then resume (s1.callConsumer Event.tick tt) id else s1

/-- The end of the close branch: `cc <- struct{}{}`, `close(cc)`, `return`. A `nil`
channel blocks the send for ever. -/
def acknowledge (s : Sys α σ) (cc : Option (Chan Unit)) : Sys α σ :=
  match cc with
  | none => { s with status := Status.blocked }
  | some ch =>
    match ch.send () with
    | Send.panicked => { s with status := Status.crashed }
    | Send.blocked => { s with status := Status.blocked }
    | Send.sent ch1 =>
      match ch1.close with
      | none => { s with status := Status.crashed }
      | some ch2 => { s with status := Status.returned, trace := s.trace ++ [Effect.ack ch2] }

/-- The `case cc := <-t.close` branch, after `cc` was received (`cl` is what is left of
`t.close`). -/
def onClose (s : Sys α σ) (cc : Option (Chan Unit)) (cl : Chan (Chan Unit)) : Sys α σ :=
  let s0 : Sys α σ := { s with task := { s.task with close := cl } }
  match s0.task.collect.close with
  | none => { s0 with status := Status.crashed }
  | some c1 =>
    let s1 : Sys α σ := { s0 with task := { s0.task with
      collect := c1.drain.2, data := s0.task.data ++ c1.drain.1 } }
    if 0 < s1.task.data.length then
      resume (s1.callConsumer Event.close s1.task.data) (fun s2 => s2.acknowledge cc)
    else s1.acknowledge cc

/-- One iteration of the `for { select { ... } }` loop taking the case `e`. `none`: the
goroutine is not running any more or the case is not ready. The timer channel is taken
to be ready whenever the scheduler says so. -/
def step [Inhabited α] (s : Sys α σ) (e : Event) : Option (Sys α σ) :=
  if s.status ≠ Status.running then none
  else
    match e with
    | Event.collect =>
      match s.task.collect.recv with
      | none => none
      | some (v, c) => some (s.onCollect (v.getD default) c)
    | Event.tick => some s.onTick
    | Event.close =>
      match s.task.close.recv with
      | none => none
      | some (cc, cl) => some (s.onClose cc cl)

end Sys

/-- What can happen to a task next: a publisher calls `Pub(x)`, a `ShutDown` goroutine
executes `t.close <- cc`, or the loop takes a ready `select` case. -/
inductive Action (α : Type) where
  | pub (x : α)
  | reqClose (cc : Chan Unit)
  | loop (e : Event)
deriving DecidableEq, Repr

namespace Sys

variable {α σ : Type}

/-- One action; `none` when it cannot happen in this state (a blocked send, a case that
is not ready, a loop that has ended). A `Pub` that returns an error leaves the
task as it was. -/
def exec [Inhabited α] (s : Sys α σ) (a : Action α) : Option (Sys α σ) :=
  match a with
  | Action.pub x =>
    match s.task.Pub x with
    | PubResult.returned _ t => some { s with task := t }
    | PubResult.blocked => none
  | Action.reqClose cc =>
    match s.task.close.send cc with
    | Send.sent c => some { s with task := { s.task with close := c } }
    | _ => none
  | Action.loop e => s.step e

/-- A schedule: the actions one after the other. -/
def run [Inhabited α] (s : Sys α σ) : List (Action α) → Option (Sys α σ)
  | [] => some s
  | a :: rest => (s.exec a).bind (fun s1 => s1.run rest)

/-- The batches handed to the consumer, in invocation order. -/
def batches (tr : List (Effect α)) : List (List α) :=
  tr.filterMap (fun e => match e with
    | Effect.call _ b _ => some b
    | Effect.ack _ => none)

end Sys

/-- The items of the `Pub` calls of a schedule, in order. -/
def published {α : Type} (sched : List (Action α)) : List α :=
  sched.filterMap (fun a => match a with
    | Action.pub x => some x
    | _ => none)

/-- The schedule has only `Pub` calls and item arrivals: no timer tick, no close request
and no close case. -/
def onlyArrivals {α : Type} (sched : List (Action α)) : Bool :=
  sched.all (fun a => match a with
    | Action.pub _ => true
    | Action.loop Event.collect => true
    | _ => false)

/-- Every item the task has taken in and not lost, in order: the batches handed to the
consumer so far, then the buffer, then the queue. -/
def Sys.flow {α σ : Type} (s : Sys α σ) : List α :=
  (Sys.batches s.trace).flatten ++ s.task.data ++ s.task.collect.buf

/-- The sizes of the batches of a task with `maxDataLen = m` and queue capacity `c`: every
batch is non-empty, a batch of the size trigger has exactly `m` items, a batch of a timer
tick fewer than `m`, and the final batch of the close case fewer than `m + c`. -/
def batchBounds {α : Type} (m : Int) (c : Nat) (tr : List (Effect α)) : Prop :=
  ∀ src b r, Effect.call src b r ∈ tr → b ≠ [] ∧
    (src = Event.collect → (b.length : Int) = m) ∧
    (src = Event.tick → (b.length : Int) < m) ∧
    (src = Event.close → (b.length : Int) < m + c)

/-- The invariant behind `batchBounds`: the queue respects its capacity and, while the
loop runs, the buffer is shorter than `maxDataLen` between two events. -/
def Sys.sized {α σ : Type} (m : Int) (c : Nat) (s : Sys α σ) : Prop :=
  s.task.maxDataLen = m ∧ s.task.collect.cap = c ∧ s.task.collect.buf.length ≤ c ∧
  (s.status = Status.running → (s.task.data.length : Int) < m) ∧
  batchBounds m c s.trace

/-- An effect without the way the consumer call ended. -/
def Effect.forget {α : Type} : Effect α → Effect α
  | Effect.call src b _ => Effect.call src b Outcome.returned
  | Effect.ack cc => Effect.ack cc

/-- The task with the consumer `f` installed and the consumer state `w`. -/
def Sys.install {α σ : Type} (s : Sys α σ) (f : List α → σ → Outcome × σ) (w : σ) :
    Sys α σ :=
  { s with task := s.task.SetConsumer f, world := w }

/-- The loop state without what belongs to the consumer: an installed consumer is
replaced by one that does nothing and returns, the consumer state is dropped and the
trace keeps the invocations but not how they ended. The buffer, the queue, the close
channel, the goroutine state and the acknowledgments are kept as they are. -/
def Sys.shape {α σ : Type} (s : Sys α σ) : Sys α Unit :=
  { task :=
      { name := s.task.name
        collectTime := s.task.collectTime
        channelLen := s.task.channelLen
        collect := s.task.collect
        data := s.task.data
        maxDataLen := s.task.maxDataLen
        consumer := s.task.consumer.map (fun _ => fun _ _ => (Outcome.returned, ()))
        close := s.task.close }
    world := ()
    status := s.status
    trace := s.trace.map Effect.forget }

/-- No consumer call of the trace ended in a panic. -/
def faultFree {α : Type} (tr : List (Effect α)) : Prop :=
  ∀ src b, Effect.call src b Outcome.panicked ∉ tr

/-- The schedule has no close request and no close case: only `Pub` calls, item arrivals
and timer ticks. -/
def noClose {α : Type} (sched : List (Action α)) : Bool :=
  sched.all (fun a => match a with
    | Action.reqClose _ => false
    | Action.loop Event.close => false
    | _ => true)

/-! ## The registry of `manager.go` and its accessors -/

/-- The constant `channelLen` of `manager.go`. -/
def channelLen : Nat := 1024

/-- The duration `time.Second`, in nanoseconds. -/
def second : Nat := 1000000000

/-- The package variable `tasks` of type `map[string]*Task`, with the heap its pointers
refer to: a `*Task` is an index into `heap`, and `newTask` allocates at the end. -/
structure Registry (α σ : Type) where
  heap : List (Task α σ)
  tasks : List (String × Nat)

namespace Registry

variable {α σ : Type}

/-- The registry at program start: `make(map[string]*Task)`. -/
def empty : Registry α σ := ⟨[], []⟩

/-- The map read `tasks[name]`; `none` when the key is absent. -/
def get (r : Registry α σ) (name : String) : Option Nat :=
  r.tasks.lookup name

/-- The statement `tasks[name] = &Task{...}`: the struct is allocated and the map entry
for `name` is set to the new pointer, replacing an older entry. -/
def store (r : Registry α σ) (name : String) (t : Task α σ) : Registry α σ :=
  { heap := r.heap ++ [t]
    tasks := (name, r.heap.length) :: r.tasks.filter (fun p => p.1 ≠ name) }

/-- Every name has at most one entry and every allocated task is the one registered
under its own name. -/
def wf (r : Registry α σ) : Prop :=
  (r.tasks.map Prod.fst).Nodup ∧
  ∀ (i : Nat) (t : Task α σ), r.heap[i]? = some t → r.get t.name = some i

end Registry

/-- The function `CPUTask`; the result is the returned pointer (`none` is `nil`) and the
registry afterwards. -/
def CPUTask {α σ : Type} (r : Registry α σ) : Option Nat × Registry α σ :=
  let name := "cpu"
  match r.get name with
  | some t => (some t, r)
  | none =>
    let r1 := r.store name (newTask name (channelLen * 5) (second * 5) channelLen)
    (r1.get name, r1)

/-- The function `MemoryTask`. -/
def MemoryTask {α σ : Type} (r : Registry α σ) : Option Nat × Registry α σ :=
  let name := "memory"
  match r.get name with
  | some t => (some t, r)
  | none =>
    let r1 := r.store name (newTask name (channelLen * 5) (second * 5) channelLen)
    (r1.get name, r1)

/-- The function `IOTask`. -/
def IOTask {α σ : Type} (r : Registry α σ) : Option Nat × Registry α σ :=
  let name := "io"
  match r.get name with
  | some t => (some t, r)
  | none =>
    let r1 := r.store name (newTask name (channelLen * 5) (second * 5) channelLen)
    (r1.get name, r1)

/-- What get-or-create means for an accessor `acc` and its name, in every registry `r`:
an unregistered name gets one new task from `newTask`, allocated and registered, and
its pointer is returned; a registered name yields the registered pointer and the same
registry; a second call returns what the first returned and changes nothing; entries
under other names are untouched; a well-formed registry stays well-formed, and in a
well-formed registry two allocated tasks with the same name are the same task. -/
def GetOrCreate {α σ : Type} (acc : Registry α σ → Option Nat × Registry α σ)
    (name : String) : Prop :=
  ∀ r : Registry α σ,
    (r.get name = none →
      (acc r).1 = some r.heap.length ∧
      (acc r).2.heap = r.heap ++ [newTask name 5120 5000000000 1024] ∧
      (acc r).2.get name = some r.heap.length) ∧
    (∀ p, r.get name = some p → acc r = (some p, r)) ∧
    acc (acc r).2 = ((acc r).1, (acc r).2) ∧
    (∀ other, other ≠ name → (acc r).2.get other = r.get other) ∧
    (r.wf → (acc r).2.wf ∧
      ∀ (i j : Nat) (t u : Task α σ),
        (acc r).2.heap[i]? = some t → (acc r).2.heap[j]? = some u →
        t.name = u.name → i = j)

/-! ## Concrete tasks used to evaluate the model -/

namespace Demo

/-- A consumer that returns normally on every batch. -/
def accept : List Nat → Unit → Outcome × Unit := fun _ _ => (Outcome.returned, ())

/-- A consumer that panics on every batch. -/
def reject : List Nat → Unit → Outcome × Unit := fun _ _ => (Outcome.panicked, ())

/-- A started task with queue capacity 8 and the given `maxDataLen` and consumer. -/
def start (maxDataLen : Int) (f : List Nat → Unit → Outcome × Unit) : Sys Nat Unit :=
  ((newTask "cpu" 8 100 maxDataLen).SetConsumer f).Async ()

/-- The acknowledgment channel `make(chan struct{}, 1)` of `ShutDown`. -/
def cc : Chan Unit := Chan.make 1

/-- Four items are published; the first is flushed by a tick, the next two by the size
trigger, the last one is still in the queue at the end. -/
def mixed : List (Action Nat) :=
  [Action.pub 1, Action.loop Event.collect, Action.loop Event.tick, Action.pub 2,
   Action.pub 3, Action.loop Event.collect, Action.loop Event.collect, Action.pub 4]

/-- Three items are published and arrive, in an interleaved order. -/
def three : List (Action Nat) :=
  [Action.pub 1, Action.pub 2, Action.loop Event.collect, Action.pub 3,
   Action.loop Event.collect, Action.loop Event.collect]

/-- Three items are published before the loop handles any of them, then `ShutDown`
sends its close request and the loop handles it. -/
def burst : List (Action Nat) :=
  [Action.pub 1, Action.pub 2, Action.pub 3, Action.reqClose cc,
   Action.loop Event.close]

/-- A consumer that counts its invocations and panics on the first one only. -/
def failFirst : List Nat → Nat → Outcome × Nat :=
  fun _ n => (if n = 0 then Outcome.panicked else Outcome.returned, n + 1)

/-- A consumer that counts its invocations and always returns. -/
def counting : List Nat → Nat → Outcome × Nat :=
  fun _ n => (Outcome.returned, n + 1)

/-- A started task with `maxDataLen = 2` whose consumer state is a counter. -/
def fresh : Sys Nat Nat := (newTask "cpu" 8 100 2).Async 0

/-- A running task with `d` in the buffer and `q` waiting in the queue. -/
def queued (maxDataLen : Int) (d q : List Nat) (f : List Nat → Unit → Outcome × Unit) :
    Sys Nat Unit :=
  { start maxDataLen f with
    task := { (start maxDataLen f).task with
      data := d, collect := { buf := q, cap := 8, closed := false } } }

/-- The task of `queued` after `ShutDown` has sent its close request. -/
def closing (maxDataLen : Int) (d q : List Nat) (f : List Nat → Unit → Outcome × Unit) :
    Sys Nat Unit :=
  { queued maxDataLen d q f with
    task := { (queued maxDataLen d q f).task with
      close := { buf := [cc], cap := 1, closed := false } } }

end Demo

/-! ## The line parsers of package `target`

`strconv.Atoi` and `strconv.ParseFloat` are library functions; the parsers take them as
the parameters `atoi` and `parseFloat` (an error carries the library's message), with `F`
for `float64`. `conf.Sc.IP` and `time.Now()` are the parameters `ip` and `now`. An index
expression `fields[i]` that is out of range is the runtime panic `Fault.indexOutOfRange`. -/

/-- The predicate `unicode.IsSpace`, on code points. -/
def isSpace (c : Char) : Bool :=
  (9 ≤ c.toNat && c.toNat ≤ 13) || c.toNat = 32 || c.toNat = 133 || c.toNat = 160 ||
  c.toNat = 5760 || (8192 ≤ c.toNat && c.toNat ≤ 8202) || c.toNat = 8232 ||
  c.toNat = 8233 || c.toNat = 8239 || c.toNat = 8287 || c.toNat = 12288

/-- The scan of `strings.Fields`: `cur` is the field being read. -/
def fieldsFrom : List Char → List Char → List String
  | [], cur => if cur.isEmpty then [] else [String.mk cur]
  | c :: rest, cur =>
    if isSpace c then
      if cur.isEmpty then fieldsFrom rest [] else String.mk cur :: fieldsFrom rest []
    else fieldsFrom rest (cur ++ [c])

/-- The function `strings.Fields`: the maximal runs of non-space characters of the line. -/
def Fields (line : String) : List String :=
  fieldsFrom line.data []

/-- How a parser call ends when it does not return a record: it returns an error, or the
goroutine panics on an index out of range (`index` with slice length `length`). -/
inductive Fault where
  | error (msg : String)
  | indexOutOfRange (index length : Nat)
deriving DecidableEq, Repr

/-- The index expression `fields[i]`. -/
def index (fields : List String) (i : Nat) : Except Fault String :=
  match fields[i]? with
  | some s => Except.ok s
  | none => Except.error (Fault.indexOutOfRange i fields.length)

/-- The pattern `v, err := conv(x); if err != nil { return ..., fmt.Errorf(what + ": %v", err) }`. -/
def convert {β : Type} (what : String) (r : Except String β) : Except Fault β :=
  match r with
  | Except.ok v => Except.ok v
  | Except.error e => Except.error (Fault.error (what ++ ": " ++ e))

/-- The struct `ProcessCPUStats`. -/
structure ProcessCPUStats (F T : Type) where
  ID : Nat
  IP : String
  Timestamp : T
  PID : Int
  User : String
  USR : F
  System : F
  Guest : F
  Wait : F
  Total : F
  Command : String
deriving DecidableEq, Repr

/-- The struct `ProcessMemStats`. -/
structure ProcessMemStats (F T : Type) where
  ID : Nat
  IP : String
  Timestamp : T
  PID : Int
  User : String
  MinorFaults : F
  MajorFaults : F
  VSZ : F
  RSS : F
  Command : String
deriving DecidableEq, Repr

/-- The struct `ProcessIOStats`. -/
structure ProcessIOStats (F T : Type) where
  ID : Nat
  IP : String
  Timestamp : T
  PID : Int
  User : String
  ReadKBPS : F
  WriteKBPS : F
  KBCCWR : F
  IODelay : F
  Command : String
deriving DecidableEq, Repr

/-- The function `parseCPUStats` of `cpu.go`. -/
def parseCPUStats {F T : Type} (atoi : String → Except String Int)
    (parseFloat : String → Except String F) (ip : String) (now : T) (line : String) :
    Except Fault (ProcessCPUStats F T) :=
  let fields := Fields line
  if fields.length < 8 then
    Except.error (Fault.error ("invalid line format: " ++ line))
  else do
    let f2 ← index fields 2
    let pid ← convert "error parsing PID" (atoi f2)
    let f4 ← index fields 4
    let usr ← convert "error parsing USR" (parseFloat f4)
    let f5 ← index fields 5
    let system ← convert "error parsing System" (parseFloat f5)
    let f6 ← index fields 6
    let guest ← convert "error parsing Guest" (parseFloat f6)
    let f7 ← index fields 7
    let wait ← convert "error parsing Guest" (parseFloat f7)
    let f8 ← index fields 8
    let total ← convert "error parsing Total CPU" (parseFloat f8)
    let user ← index fields 3
    let command ← index fields (fields.length - 1)
    pure { ID := 0, IP := ip, PID := pid, User := user, USR := usr, System := system,
           Guest := guest, Wait := wait, Total := total, Command := command,
           Timestamp := now }

/-- The function `parseMemoryStats` of `memory.go`. -/
def parseMemoryStats {F T : Type} (atoi : String → Except String Int)
    (parseFloat : String → Except String F) (ip : String) (now : T) (line : String) :
    Except Fault (ProcessMemStats F T) :=
  let fields := Fields line
  if fields.length < 8 then
    Except.error (Fault.error ("invalid line format: " ++ line))
  else do
    let f2 ← index fields 2
    let pid ← convert "error parsing PID" (atoi f2)
    let f5 ← index fields 5
    let minFaults ← convert "error parsing minor faults" (parseFloat f5)
    let f6 ← index fields 6
    let majFaults ← convert "error parsing major faults" (parseFloat f6)
    let f7 ← index fields 7
    let vsz ← convert "error parsing VSZ" (parseFloat f7)
    let f8 ← index fields 8
    let rss ← convert "error parsing RSS" (parseFloat f8)
    let user ← index fields 3
    let command ← index fields (fields.length - 1)
    pure { ID := 0, IP := ip, PID := pid, User := user, MinorFaults := minFaults,
           MajorFaults := majFaults, VSZ := vsz, RSS := rss, Command := command,
           Timestamp := now }

/-- The function `parseIOStats` of `io.go`. The last message also prints `fields[7]`,
which was read just before. -/
def parseIOStats {F T : Type} (atoi : String → Except String Int)
    (parseFloat : String → Except String F) (ip : String) (now : T) (line : String) :
    Except Fault (ProcessIOStats F T) :=
  let fields := Fields line
  if fields.length < 8 then
    Except.error (Fault.error ("invalid line format: " ++ line))
  else do
    let f2 ← index fields 2
    let pid ← convert "error parsing PID" (atoi f2)
    let f4 ← index fields 4
    let readKB ← convert "error parsing kB_rd/s" (parseFloat f4)
    let f5 ← index fields 5
    let writeKB ← convert "error parsing kB_wr/s" (parseFloat f5)
    let f6 ← index fields 6
    let kB_ccwr ← convert "error parsing IO_rd/s" (parseFloat f6)
    let f7 ← index fields 7
    let ioDelay ←
      match parseFloat f7 with
      | Except.ok v => Except.ok v
      | Except.error e =>
        Except.error (Fault.error ("error parsing IO_wr/s: " ++ e ++ ",fields:" ++ f7))
    let user ← index fields 3
    let command ← index fields (fields.length - 1)
    pure { ID := 0, IP := ip, PID := pid, User := user, ReadKBPS := readKB,
           WriteKBPS := writeKB, KBCCWR := kB_ccwr, IODelay := ioDelay,
           Command := command, Timestamp := now }

/-- The parser call ended in the index-out-of-range panic. -/
def outOfRange {β : Type} (r : Except Fault β) : Bool :=
  match r with
  | Except.error (Fault.indexOutOfRange _ _) => true
  | _ => false

namespace Demo

/-- The value of a run of decimal digits, `none` when a character is not a digit. -/
def digitsValue : List Char → Nat → Option Nat
  | [], acc => some acc
  | c :: rest, acc =>
    if 48 ≤ c.toNat ∧ c.toNat ≤ 57 then digitsValue rest (acc * 10 + (c.toNat - 48))
    else none

/-- What `strconv.Atoi` does on an unsigned decimal numeral; any other text is refused. -/
def atoi (s : String) : Except String Int :=
  match s.data with
  | [] => Except.error "invalid syntax"
  | cs =>
    match digitsValue cs 0 with
    | some n => Except.ok (n : Int)
    | none => Except.error "invalid syntax"

/-- What `strconv.ParseFloat` does on a plain decimal `digits.digits`: the value
`m / 10 ^ k` is kept as the pair `(m, k)`; any other text is refused. -/
def parseFloat (s : String) : Except String (Nat × Nat) :=
  match s.data.span (fun c => decide (c.toNat ≠ 46)) with
  | (whole, _ :: frac) =>
    match digitsValue (whole ++ frac) 0 with
    | some m =>
      if whole.isEmpty ∨ frac.isEmpty then Except.error "invalid syntax"
      else Except.ok (m, frac.length)
    | none => Except.error "invalid syntax"
  | (_, []) => Except.error "invalid syntax"

/-- A line of exactly eight fields whose numeric fields are well-formed. -/
def eight : String := "10:00:01 0 1234 root 1.50 2.25 0.00 3.75"

/-- A line of nine fields whose numeric fields are well-formed. -/
def nine : String := "10:00:01 0 1234 root 1.50 2.25 0.00 3.75 5.00"

end Demo

/-! ## The accessors, statement by statement

An accessor is not atomic: between its map read, its map write and its final map read
other goroutines can run. `accessStep` is the body shared by `CPUTask`, `MemoryTask` and
`IOTask`, one statement at a time, for the accessor's `name`. -/

/-- Where a caller stands in the body of an accessor: before the read
`t, ok := tasks[name]`, after a read with `ok` false, after the write
`tasks[name] = newTask(...)`, or returned with a pointer (`none` is `nil`). -/
inductive Caller where
  | entered
  | absent
  | stored
  | returned (t : Option Nat)
deriving DecidableEq, Repr

/-- The next statement of the accessor for `name`, executed by a caller that stands at
`c`; `none` when the caller has returned. -/
def accessStep {α σ : Type} (name : String) (r : Registry α σ) (c : Caller) :
    Option (Caller × Registry α σ) :=
  match c with
  | Caller.entered =>
    match r.get name with
    | some t => some (Caller.returned (some t), r)
    | none => some (Caller.absent, r)
  | Caller.absent =>
    some (Caller.stored,
      r.store name (newTask name (channelLen * 5) (second * 5) channelLen))
  | Caller.stored => some (Caller.returned (r.get name), r)
  | Caller.returned _ => none

/-- Goroutines inside the accessor for one name, over the shared registry. -/
structure Race (α σ : Type) where
  registry : Registry α σ
  callers : List Caller

/-- Caller `i` executes its next statement. -/
def Race.step {α σ : Type} (name : String) (st : Race α σ) (i : Nat) : Option (Race α σ) :=
  match st.callers[i]? with
  | none => none
  | some c =>
    match accessStep name st.registry c with
    | none => none
    | some (c1, r1) => some { registry := r1, callers := st.callers.set i c1 }

/-- An interleaving: which caller moves, step after step. -/
def Race.run {α σ : Type} (name : String) (st : Race α σ) : List Nat → Option (Race α σ)
  | [] => some st
  | i :: rest => (Race.step name st i).bind (fun st1 => Race.run name st1 rest)

/-- A caller that runs alone from `c` until it returns, in at most `fuel` statements: the
returned pointer and the registry afterwards. -/
def Race.complete {α σ : Type} (name : String) :
    Nat → Registry α σ → Caller → Option (Option Nat × Registry α σ)
  | _, r, Caller.returned t => some (t, r)
  | 0, _, _ => none
  | fuel + 1, r, c =>
    match accessStep name r c with
    | some (c1, r1) => Race.complete name fuel r1 c1
    | none => none

/-! ## The function `ShutDown` -/

/-- The goroutine `ShutDown` starts for one task: in `time.Sleep` before
`t.close <- cc`, blocked in `<-cc`, or past `wg.Done()`. -/
inductive Closer where
  | sleeping
  | waiting
  | done
deriving DecidableEq, Repr

/-- A registered task during `ShutDown`: the task with its loop, the goroutine `ShutDown`
started for it, and two ghost fields: the items for which `Pub` returned `nil` since
`ShutDown` was called and the number of close requests `ShutDown` has sent to the task. -/
structure Node (α σ : Type) where
  sys : Sys α σ
  closer : Closer
  sent : List α
  requests : Nat

/-- What can happen at one task during `ShutDown`: a publisher calls `Pub(x)`, the loop
takes a `select` case, the goroutine of `ShutDown` sends its request
(`cc := make(chan struct{}, 1); t.close <- cc`) or gets its acknowledgment
(`<-cc; wg.Done()`). -/
inductive NodeAction (α : Type) where
  | pub (x : α)
  | loop (e : Event)
  | request
  | join
deriving DecidableEq, Repr

/-- The loop has signalled an acknowledgment channel: a receive from it is ready. -/
def acked {α : Type} (tr : List (Effect α)) : Bool :=
  tr.any (fun e => match e with
    | Effect.ack ch => ch.recv.isSome
    | Effect.call _ _ _ => false)

/-- One action at a task; `none` when it cannot happen now: a blocked send or receive, a
`select` case that is not ready, a goroutine that is elsewhere in its body. (A send of
the request on a closed `t.close` would panic and end the process; it is not a step.) -/
def Node.exec {α σ : Type} [Inhabited α] (n : Node α σ) (a : NodeAction α) :
    Option (Node α σ) :=
  match a with
  | NodeAction.pub x =>
    match n.sys.task.Pub x with
    | PubResult.returned none t =>
      some { n with sys := { n.sys with task := t }, sent := n.sent ++ [x] }
    | PubResult.returned (some _) t => some { n with sys := { n.sys with task := t } }
    | PubResult.blocked => none
  | NodeAction.loop e => (n.sys.step e).map (fun s => { n with sys := s })
  | NodeAction.request =>
    match n.closer with
    | Closer.sleeping =>
      match n.sys.task.close.send (Chan.make 1) with
      | Send.sent c =>
        some { n with sys := { n.sys with task := { n.sys.task with close := c } },
                      closer := Closer.waiting, requests := n.requests + 1 }
      | _ => none
    | _ => none
  | NodeAction.join =>
    match n.closer with
    | Closer.waiting => if acked n.sys.trace then some { n with closer := Closer.done } else none
    | _ => none

/-- The function `ShutDown` up to `wg.Wait()`: the `for _, t := range tasks` loop starts one
goroutine for each registered task. `tasks` is the present state of the registered tasks,
in the order the range loop visits them. -/
def ShutDown {α σ : Type} (tasks : List (Sys α σ)) : List (Node α σ) :=
  tasks.map (fun s => { sys := s, closer := Closer.sleeping, sent := [], requests := 0 })

/-- The call `wg.Wait()` returns, and `ShutDown` with it: every goroutine is past
`wg.Done()`. -/
def ShutDown.returned {α σ : Type} (nodes : List (Node α σ)) : Bool :=
  nodes.all (fun n => decide (n.closer = Closer.done))

/-- An execution during `ShutDown`: at each step an action at the task with the given
position. -/
def runFleet {α σ : Type} [Inhabited α] (nodes : List (Node α σ)) :
    List (Nat × NodeAction α) → Option (List (Node α σ))
  | [] => some nodes
  | (i, a) :: rest =>
    match nodes[i]? with
    | none => none
    | some n => (n.exec a).bind (fun n1 => runFleet (nodes.set i n1) rest)

/-- A task whose loop runs and has not been asked to close: the queue is open, no close
request is pending, no acknowledgment has been signalled, a consumer is installed. -/
def Sys.live {α σ : Type} (s : Sys α σ) : Prop :=
  s.status = Status.running ∧ s.task.collect.closed = false ∧ acked s.trace = false ∧
  ∃ f, s.task.consumer = some f

/-- A task whose loop has handled the close request of `ShutDown`: the loop has returned,
the queue is closed and empty, the acknowledgment is signalled and the batches handed to
the consumer are what the task held at the call of `ShutDown` followed by what was
published since. -/
def Node.drained {α σ : Type} (s0 : Sys α σ) (n : Node α σ) : Prop :=
  n.sys.status = Status.returned ∧ n.sys.task.collect.closed = true ∧
  n.sys.task.collect.buf = [] ∧ acked n.sys.trace = true ∧
  (Sys.batches n.sys.trace).flatten = s0.flow ++ n.sent

/-- The invariant of a task during `ShutDown`, by the place of its goroutine. -/
def Node.inv {α σ : Type} (s0 : Sys α σ) (n : Node α σ) : Prop :=
  match n.closer with
  | Closer.sleeping =>
    n.requests = 0 ∧ n.sys.live ∧ n.sys.task.close = Chan.make 1 ∧
    n.sys.flow = s0.flow ++ n.sent
  | Closer.waiting =>
    n.requests = 1 ∧
    ((n.sys.live ∧ n.sys.task.close = ⟨[Chan.make 1], 1, false⟩ ∧
        n.sys.flow = s0.flow ++ n.sent) ∨ n.drained s0)
  | Closer.done => n.requests = 1 ∧ n.drained s0

namespace Demo

/-- Two tasks during `ShutDown`: an item is published to each, both requests are sent,
one more item reaches the first task before its loop handles the request, the second
loop takes its item in before it handles the request, then both goroutines get their
acknowledgment. -/
def shutdown : List (Nat × NodeAction Nat) :=
  [(0, NodeAction.pub 1), (1, NodeAction.pub 5), (0, NodeAction.request),
   (1, NodeAction.request), (0, NodeAction.pub 2), (0, NodeAction.loop Event.close),
   (1, NodeAction.loop Event.collect), (1, NodeAction.loop Event.close),
   (0, NodeAction.join), (1, NodeAction.join)]

end Demo

/-! ## Basic facts about the consumer call -/

namespace Sys

variable {α σ : Type}

theorem callConsumer_fst (s : Sys α σ) (src : Event) (d : List α) :
    (s.callConsumer src d).1 = Outcome.returned := by
  unfold callConsumer
  split <;> rfl

theorem callConsumer_snd (s : Sys α σ) (src : Event) (d : List α) :
    (s.callConsumer src d).2 = (s.consumerCall src d).2 := by
  unfold callConsumer
  split <;> simp_all

theorem callConsumer_some (s : Sys α σ) (src : Event) (d : List α)
    (f : List α → σ → Outcome × σ) (h : s.task.consumer = some f) :
    (s.callConsumer src d).2 =
      { s with world := (f d s.world).2,
               trace := s.trace ++ [Effect.call src d (f d s.world).1] } := by
  rw [callConsumer_snd]
  simp [consumerCall, h]

theorem resume_callConsumer (s : Sys α σ) (src : Event) (d : List α)
    (k : Sys α σ → Sys α σ) :
    resume (s.callConsumer src d) k = k (s.callConsumer src d).2 := by
  have h := callConsumer_fst s src d
  generalize s.callConsumer src d = r at h
  obtain ⟨o, s1⟩ := r
  simp only at h
  subst h
  rfl

theorem callConsumer_task (s : Sys α σ) (src : Event) (d : List α) :
    (s.callConsumer src d).2.task = s.task := by
  rw [callConsumer_snd]
  unfold consumerCall
  split <;> rfl

end Sys

/-! ## The timer case -/

namespace Sys

variable {α σ : Type}

theorem onTick_idle (s : Sys α σ) (h : s.task.data = []) : s.onTick = s := by
  obtain ⟨t, w, st, tr⟩ := s
  obtain ⟨n, ct, cl, co, d, m, f, c⟩ := t
  simp only at h
  subst h
  simp [onTick]

theorem onTick_flush (s : Sys α σ) (f : List α → σ → Outcome × σ)
    (hf : s.task.consumer = some f) (h : s.task.data ≠ []) :
    s.onTick = { s with task := { s.task with data := [] },
                        world := (f s.task.data s.world).2,
                        trace := s.trace ++
                          [Effect.call Event.tick s.task.data (f s.task.data s.world).1] } := by
  have hpos : 0 < s.task.data.length := List.length_pos.mpr h
  unfold onTick
  simp only [hpos, if_true, resume_callConsumer, id]
  rw [callConsumer_some _ _ _ f (by simpa using hf)]

end Sys

/-- C8. An idle tick has no effect: when the loop is running and the buffer is empty,
handling a timer tick yields the very same state, so the consumer is not invoked, the
buffer stays empty and the queue is unchanged. -/
theorem idle_tick_no_effect {α σ : Type} [Inhabited α] (s : Sys α σ)
    (hrun : s.status = Status.running) (hbuf : s.task.data = []) :
    s.step Event.tick = some s := by
  simp [Sys.step, hrun, Sys.onTick_idle s hbuf]

theorem idle_tick_no_effect_witness :
    (Demo.start 4 Demo.accept).status = Status.running ∧
    (Demo.start 4 Demo.accept).task.data = [] ∧
    (Demo.start 4 Demo.accept).step Event.tick = some (Demo.start 4 Demo.accept) :=
  ⟨rfl, rfl, idle_tick_no_effect (Demo.start 4 Demo.accept) rfl rfl⟩

/-! ## The item case -/

namespace Sys

variable {α σ : Type}

theorem step_collect_cons [Inhabited α] (s : Sys α σ) (x : α) (rest : List α)
    (hrun : s.status = Status.running) (hq : s.task.collect.buf = x :: rest) :
    s.step Event.collect = some (s.onCollect x { s.task.collect with buf := rest }) := by
  simp [step, hrun, Chan.recv, hq]

theorem onCollect_keep (s : Sys α σ) (x : α) (c : Chan α)
    (h : ¬ (0 < s.task.maxDataLen ∧ s.task.maxDataLen ≤ (s.task.data.length : Int) + 1)) :
    s.onCollect x c =
      { s with task := { s.task with collect := c, data := s.task.data ++ [x] } } := by
  unfold onCollect
  simp only [List.length_append, List.length_singleton, Nat.cast_add, Nat.cast_one]
  rw [if_neg h]

theorem onCollect_flush (s : Sys α σ) (x : α) (c : Chan α) (f : List α → σ → Outcome × σ)
    (hf : s.task.consumer = some f)
    (h : 0 < s.task.maxDataLen ∧ s.task.maxDataLen ≤ (s.task.data.length : Int) + 1) :
    s.onCollect x c =
      { s with task := { s.task with collect := c, data := [] },
               world := (f (s.task.data ++ [x]) s.world).2,
               trace := s.trace ++ [Effect.call Event.collect (s.task.data ++ [x])
                          (f (s.task.data ++ [x]) s.world).1] } := by
  unfold onCollect
  simp only [List.length_append, List.length_singleton, Nat.cast_add, Nat.cast_one]
  rw [if_pos h, if_pos (Nat.succ_pos _), resume_callConsumer]
  rw [callConsumer_some _ _ _ f (by simpa using hf)]
  rfl

end Sys

/-- C5 (amended). When the running loop handles the arrival of the queue's head `x`, it
appends `x` to the buffer. If `maxDataLen` is at least 1 and the buffer length has
reached it, the consumer is invoked exactly once with the whole buffer, in order, and the
buffer is left empty. Otherwise (the length is still below `maxDataLen`, or `maxDataLen`
is zero or negative, which switches the size trigger off) the consumer is not invoked
and the buffer keeps the appended item. -/
theorem collect_arrival {α σ : Type} [Inhabited α] (s : Sys α σ)
    (f : List α → σ → Outcome × σ) (x : α) (rest : List α)
    (hrun : s.status = Status.running) (hcons : s.task.consumer = some f)
    (hq : s.task.collect.buf = x :: rest) :
    ∃ s1, s.step Event.collect = some s1 ∧ s1.task.collect.buf = rest ∧
      s1.status = Status.running ∧
      (1 ≤ s.task.maxDataLen → s.task.maxDataLen ≤ ((s.task.data ++ [x]).length : Int) →
        s1.task.data = [] ∧
        s1.trace = s.trace ++ [Effect.call Event.collect (s.task.data ++ [x])
                      (f (s.task.data ++ [x]) s.world).1]) ∧
      ((s.task.maxDataLen ≤ 0 ∨ ((s.task.data ++ [x]).length : Int) < s.task.maxDataLen) →
        s1.task.data = s.task.data ++ [x] ∧ s1.trace = s.trace) := by
  refine ⟨_, Sys.step_collect_cons s x rest hrun hq, ?_⟩
  by_cases h : 0 < s.task.maxDataLen ∧ s.task.maxDataLen ≤ (s.task.data.length : Int) + 1
  · rw [Sys.onCollect_flush s x _ f hcons h]
    refine ⟨rfl, hrun, fun _ _ => ⟨rfl, rfl⟩, ?_⟩
    intro h2
    exfalso
    simp only [List.length_append, List.length_singleton, Nat.cast_add, Nat.cast_one] at h2
    omega
  · rw [Sys.onCollect_keep s x _ h]
    refine ⟨rfl, hrun, ?_, fun _ => ⟨rfl, rfl⟩⟩
    intro h1 h2
    exfalso
    simp only [List.length_append, List.length_singleton, Nat.cast_add, Nat.cast_one] at h2
    exact h ⟨by omega, h2⟩

theorem collect_arrival_witness :
    ∃ s1, (Demo.queued 2 [1] [2, 3] Demo.accept).step Event.collect = some s1 ∧
      s1.task.data = [] ∧
      s1.trace = [Effect.call Event.collect [1, 2] Outcome.returned] := by
  obtain ⟨s1, h1, _, _, h2, _⟩ :=
    collect_arrival (Demo.queued 2 [1] [2, 3] Demo.accept) Demo.accept 2 [3] rfl rfl rfl
  exact ⟨s1, h1, h2 (by decide) (by decide)⟩

/-- C5 as stated fails for `maxDataLen = 0`: the item 7 arrives, the buffer length 1 is
at least `maxDataLen`, yet the consumer is not invoked and the buffer is not emptied. -/
theorem collect_flush_every_size_counterexample :
    ∃ s1, (Demo.queued 0 [] [7] Demo.accept).step Event.collect = some s1 ∧
      (Demo.queued 0 [] [7] Demo.accept).task.maxDataLen ≤ (s1.task.data.length : Int) ∧
      s1.task.data = [7] ∧ s1.trace = [] :=
  ⟨_, rfl, by decide, rfl, rfl⟩

/-! ## The close case -/

namespace Sys

variable {α σ : Type}

theorem step_stopped [Inhabited α] (s : Sys α σ) (h : s.status ≠ Status.running)
    (e : Event) : s.step e = none := by
  simp [step, h]

theorem step_close_cons [Inhabited α] (s : Sys α σ) (cc : Chan Unit)
    (rest : List (Chan Unit)) (hrun : s.status = Status.running)
    (hq : s.task.close.buf = cc :: rest) :
    s.step Event.close = some (s.onClose (some cc) { s.task.close with buf := rest }) := by
  simp [step, hrun, Chan.recv, hq]

theorem acknowledge_fresh (s : Sys α σ) :
    s.acknowledge (some (Chan.make 1)) =
      { s with status := Status.returned,
               trace := s.trace ++ [Effect.ack ⟨[()], 1, true⟩] } := by
  simp [acknowledge, Chan.make, Chan.send, Chan.close]

/-- The close branch on an open queue: the queue is closed and drained into the buffer,
the buffer is flushed when it is not empty, then `cc` is acknowledged. -/
theorem onClose_open (s : Sys α σ) (f : List α → σ → Outcome × σ)
    (cc : Option (Chan Unit)) (cl : Chan (Chan Unit))
    (hf : s.task.consumer = some f) (hopen : s.task.collect.closed = false) :
    s.onClose cc cl =
      if 0 < (s.task.data ++ s.task.collect.buf).length then
        acknowledge
          { s with task := { s.task with
                             close := cl,
                             collect := { s.task.collect with buf := [], closed := true },
                             data := s.task.data ++ s.task.collect.buf },
                   world := (f (s.task.data ++ s.task.collect.buf) s.world).2,
                   trace := s.trace ++ [Effect.call Event.close
                     (s.task.data ++ s.task.collect.buf)
                     (f (s.task.data ++ s.task.collect.buf) s.world).1] } cc
      else
        acknowledge
          { s with task := { s.task with
                             close := cl,
                             collect := { s.task.collect with buf := [], closed := true },
                             data := s.task.data ++ s.task.collect.buf } } cc := by
  unfold onClose
  simp only [Chan.close, hopen, Chan.drain, Bool.false_eq_true, if_false]
  split
  · rw [resume_callConsumer, callConsumer_some _ _ _ f (by simpa using hf)]
  · rfl

theorem acknowledge_task (s : Sys α σ) (cc : Option (Chan Unit)) :
    (s.acknowledge cc).task = s.task := by
  unfold acknowledge
  repeat (first | rfl | split)

theorem onClose_closed (s : Sys α σ) (cc : Option (Chan Unit)) (cl : Chan (Chan Unit)) :
    (s.onClose cc cl).task.collect.closed = true := by
  unfold onClose
  simp only [Chan.close, Chan.drain]
  cases h : s.task.collect.closed
  · simp only [Bool.false_eq_true, if_false]
    split
    · rw [resume_callConsumer, acknowledge_task, callConsumer_task]
    · rw [acknowledge_task]
  · simp [h]

theorem pub_closed (t : Task α σ) (b : α) (h : t.collect.closed = true) :
    t.Pub b = PubResult.returned (some "recover") t := by
  simp [Task.Pub, Chan.send, h]

end Sys

/-- C2. A running task with an installed consumer, an open queue and the close request of
`ShutDown` (a fresh `make(chan struct{}, 1)`) at the head of `t.close`: handling the close
request is possible and ends the loop. With `K` the buffer followed by the queue, the
trace grows by one consumer call with exactly `K` when `K` is not empty, by none when it
is empty, and then by the one acknowledgment (sent and closed on that channel); the
queue ends closed and drained, and no further event is handled. Nothing here needs
`K.length < maxDataLen`. -/
theorem close_flushes_then_acknowledges {α σ : Type} [Inhabited α] (s : Sys α σ)
    (f : List α → σ → Outcome × σ) (rest : List (Chan Unit))
    (hrun : s.status = Status.running) (hcons : s.task.consumer = some f)
    (hopen : s.task.collect.closed = false)
    (hreq : s.task.close.buf = Chan.make 1 :: rest) :
    ∃ s1, s.step Event.close = some s1 ∧
      s1.trace = s.trace ++
        (if 0 < (s.task.data ++ s.task.collect.buf).length then
          [Effect.call Event.close (s.task.data ++ s.task.collect.buf)
            (f (s.task.data ++ s.task.collect.buf) s.world).1]
         else []) ++ [Effect.ack ⟨[()], 1, true⟩] ∧
      s1.status = Status.returned ∧
      s1.task.collect.closed = true ∧ s1.task.collect.buf = [] ∧
      ∀ e, s1.step e = none := by
  refine ⟨_, Sys.step_close_cons s _ rest hrun hreq, ?_⟩
  rw [Sys.onClose_open s f _ _ hcons hopen]
  split
  · rw [Sys.acknowledge_fresh]
    refine ⟨by simp, rfl, rfl, rfl, fun e => Sys.step_stopped _ (by simp) e⟩
  · rw [Sys.acknowledge_fresh]
    refine ⟨by simp, rfl, rfl, rfl, fun e => Sys.step_stopped _ (by simp) e⟩

theorem close_flushes_then_acknowledges_witness :
    ∃ s1, (Demo.closing 4 [1] [2, 3] Demo.accept).step Event.close = some s1 ∧
      s1.trace = [Effect.call Event.close [1, 2, 3] Outcome.returned,
                  Effect.ack ⟨[()], 1, true⟩] ∧
      s1.status = Status.returned ∧ ∀ e, s1.step e = none := by
  obtain ⟨s1, h1, h2, h3, _, _, h4⟩ :=
    close_flushes_then_acknowledges (Demo.closing 4 [1] [2, 3] Demo.accept) Demo.accept []
      rfl rfl rfl rfl
  exact ⟨s1, h1, h2, h3, h4⟩

/-- C3 as stated fails while the task is Closing: `ShutDown` has sent its close request,
the loop has not handled it yet, the queue is still open, and `Pub 7` returns `nil` with
7 added to the queue. -/
theorem pub_while_closing_counterexample :
    (Demo.closing 4 [1] [2, 3] Demo.accept).task.close.buf = [Demo.cc] ∧
    ∃ t, (Demo.closing 4 [1] [2, 3] Demo.accept).task.Pub 7 = PubResult.returned none t ∧
      t.collect.buf = [2, 3, 7] :=
  ⟨rfl, _, rfl, rfl⟩

/-- C3 (amended). `s` is a task whose loop is about to handle a close request (the
request has been issued and is at the head of `t.close`), `s1` the task once the loop
has handled it. After the handling the queue is closed and `Pub` returns the non-nil
error `"recover"` for every item, without a panic reaching the caller and with the task
(queue and buffer) unchanged. Before the handling, while the queue is still open, `Pub`
returns no error: it adds the item at the end of the queue and returns `nil` when the
queue has room, and it blocks while the queue is full. -/
theorem pub_after_close_handled {α σ : Type} [Inhabited α] (s s1 : Sys α σ) (b : α)
    (h : s.step Event.close = some s1) :
    s1.task.Pub b = PubResult.returned (some "recover") s1.task ∧
    (s.task.collect.closed = false →
      (s.task.collect.buf.length < s.task.collect.cap →
        s.task.Pub b = PubResult.returned none
          { s.task with collect := { s.task.collect with
              buf := s.task.collect.buf ++ [b] } }) ∧
      (s.task.collect.cap ≤ s.task.collect.buf.length →
        s.task.Pub b = PubResult.blocked)) := by
  constructor
  · apply Sys.pub_closed
    unfold Sys.step at h
    split at h
    · exact absurd h (by simp)
    · simp only at h
      split at h
      · exact absurd h (by simp)
      · rename_i cc cl _
        have h1 : s.onClose cc cl = s1 := by simpa using h
        rw [← h1]
        exact Sys.onClose_closed s cc cl
  · intro hopen
    constructor
    · intro hlt
      simp [Task.Pub, Chan.send, hopen, hlt]
    · intro hfull
      have hnot : ¬ s.task.collect.buf.length < s.task.collect.cap := Nat.not_lt.mpr hfull
      simp [Task.Pub, Chan.send, hopen, hnot]

theorem pub_after_close_handled_witness :
    (∃ s1, (Demo.closing 4 [1] [2, 3] Demo.accept).step Event.close = some s1 ∧
      s1.task.Pub 7 = PubResult.returned (some "recover") s1.task) ∧
    (∃ t, (Demo.closing 4 [1] [2, 3] Demo.accept).task.Pub 7 = PubResult.returned none t ∧
      t.collect.buf = [2, 3, 7]) ∧
    (Demo.closing 4 [] [1, 2, 3, 4, 5, 6, 7, 8] Demo.accept).task.Pub 9 =
      PubResult.blocked :=
  ⟨⟨_, rfl,
      (pub_after_close_handled (Demo.closing 4 [1] [2, 3] Demo.accept) _ 7 rfl).1⟩,
    ⟨_, ((pub_after_close_handled (Demo.closing 4 [1] [2, 3] Demo.accept) _ 7 rfl).2
      rfl).1 (by decide), rfl⟩,
    ((pub_after_close_handled (Demo.closing 4 [] [1, 2, 3, 4, 5, 6, 7, 8] Demo.accept)
      _ 9 rfl).2 rfl).2 (by decide)⟩

/-! ## Runs without a close request -/

namespace Sys

variable {α σ : Type}

theorem run_append [Inhabited α] (s : Sys α σ) (l1 l2 : List (Action α)) :
    s.run (l1 ++ l2) = (s.run l1).bind (fun s1 => s1.run l2) := by
  induction l1 generalizing s with
  | nil => simp [run]
  | cons a l ih =>
    simp only [List.cons_append, run]
    cases s.exec a with
    | none => rfl
    | some s1 => simpa using ih s1

theorem exec_pub_open [Inhabited α] (s s1 : Sys α σ) (x : α)
    (hopen : s.task.collect.closed = false) (h : s.exec (Action.pub x) = some s1) :
    s1 = { s with task := { s.task with
             collect := { s.task.collect with buf := s.task.collect.buf ++ [x] } } } ∧
    s.task.collect.buf.length < s.task.collect.cap := by
  simp only [exec, Task.Pub, Chan.send, hopen, Bool.false_eq_true, if_false] at h
  by_cases hc : s.task.collect.buf.length < s.task.collect.cap
  · simp only [hc, if_true, Option.some.injEq] at h
    refine ⟨?_, hc⟩
    rw [← h]
    simp [hopen]
  · simp [hc] at h

theorem exec_collect_open [Inhabited α] (s s1 : Sys α σ)
    (hopen : s.task.collect.closed = false)
    (h : s.exec (Action.loop Event.collect) = some s1) :
    ∃ x rest, s.task.collect.buf = x :: rest ∧
      s1 = s.onCollect x { s.task.collect with buf := rest } := by
  simp only [exec, step] at h
  split at h
  · exact absurd h (by simp)
  · cases hb : s.task.collect.buf with
    | nil => simp [Chan.recv, hb, hopen] at h
    | cons x rest =>
      simp only [Chan.recv, hb, Option.getD_some, Option.some.injEq] at h
      exact ⟨x, rest, rfl, h.symm⟩

theorem exec_loop_running [Inhabited α] (s s1 : Sys α σ) (e : Event)
    (h : s.exec (Action.loop e) = some s1) : s.status = Status.running := by
  simp only [exec, step] at h
  by_contra hn
  simp [hn] at h

theorem exec_tick [Inhabited α] (s s1 : Sys α σ)
    (h : s.exec (Action.loop Event.tick) = some s1) : s1 = s.onTick := by
  have hrun := exec_loop_running s s1 _ h
  simp only [exec, step, hrun, ne_eq, not_true_eq_false, if_false, Option.some.injEq] at h
  exact h.symm

theorem batches_call (tr : List (Effect α)) (src : Event) (b : List α) (r : Outcome) :
    batches (tr ++ [Effect.call src b r]) = batches tr ++ [b] := by
  simp [batches, List.filterMap_append]

theorem faultFree_call (tr : List (Effect α)) (src : Event) (b : List α) (r : Outcome)
    (h : faultFree tr) (hr : r = Outcome.returned) :
    faultFree (tr ++ [Effect.call src b r]) := by
  intro src1 b1 hmem
  rcases List.mem_append.mp hmem with h1 | h1
  · exact h src1 b1 h1
  · simp [hr] at h1

/-- What a `Pub`, an item arrival or a timer tick does to a running task with an open
queue and an installed consumer: the task stays so, and the flow grows by the published
item only. -/
theorem exec_noClose_flow [Inhabited α] (s s1 : Sys α σ) (a : Action α)
    (f : List α → σ → Outcome × σ) (hna : noClose [a] = true)
    (hrun : s.status = Status.running) (hopen : s.task.collect.closed = false)
    (hcons : s.task.consumer = some f) (h : s.exec a = some s1) :
    s1.status = Status.running ∧ s1.task.collect.closed = false ∧
    s1.task.consumer = some f ∧ s1.task.close = s.task.close ∧
    s1.flow = s.flow ++ published [a] ∧
    ((∀ b w, (f b w).1 = Outcome.returned) → faultFree s.trace → faultFree s1.trace) := by
  cases a with
  | pub x =>
    obtain ⟨rfl, _⟩ := exec_pub_open s s1 x hopen h
    exact ⟨hrun, hopen, hcons, rfl, by simp [flow, published], fun _ hff => hff⟩
  | reqClose cc => simp [noClose] at hna
  | loop e =>
    cases e with
    | close => simp [noClose] at hna
    | collect =>
      obtain ⟨x, rest, hb, rfl⟩ := exec_collect_open s s1 hopen h
      by_cases hc : 0 < s.task.maxDataLen ∧
          s.task.maxDataLen ≤ (s.task.data.length : Int) + 1
      · rw [onCollect_flush s x _ f hcons hc]
        refine ⟨hrun, hopen, hcons, rfl, ?_, fun hf hff => faultFree_call _ _ _ _ hff (hf _ _)⟩
        simp [flow, published, batches_call, hb]
      · rw [onCollect_keep s x _ hc]
        refine ⟨hrun, hopen, hcons, rfl, ?_, fun _ hff => hff⟩
        simp [flow, published, hb]
    | tick =>
      have h1 := exec_tick s s1 h
      subst h1
      by_cases hd : s.task.data = []
      · rw [onTick_idle s hd]
        exact ⟨hrun, hopen, hcons, rfl, by simp [published], fun _ hff => hff⟩
      · rw [onTick_flush s f hcons hd]
        refine ⟨hrun, hopen, hcons, rfl, ?_, fun hf hff => faultFree_call _ _ _ _ hff (hf _ _)⟩
        simp [flow, published, batches_call]

theorem published_cons (a : Action α) (l : List (Action α)) :
    published (a :: l) = published [a] ++ published l := by
  cases a <;> simp [published]

theorem noClose_cons (a : Action α) (l : List (Action α)) :
    noClose (a :: l) = (noClose [a] && noClose l) := by
  simp [noClose]

/-- The flow invariant along a schedule without close. -/
theorem run_noClose_flow [Inhabited α] (sched : List (Action α)) (s s1 : Sys α σ)
    (f : List α → σ → Outcome × σ) (hna : noClose sched = true)
    (hrun : s.status = Status.running) (hopen : s.task.collect.closed = false)
    (hcons : s.task.consumer = some f) (h : s.run sched = some s1) :
    s1.status = Status.running ∧ s1.task.collect.closed = false ∧
    s1.task.consumer = some f ∧ s1.task.close = s.task.close ∧
    s1.flow = s.flow ++ published sched ∧
    ((∀ b w, (f b w).1 = Outcome.returned) → faultFree s.trace → faultFree s1.trace) := by
  induction sched generalizing s with
  | nil =>
    simp only [run, Option.some.injEq] at h
    subst h
    exact ⟨hrun, hopen, hcons, rfl, by simp [published], fun _ hff => hff⟩
  | cons a l ih =>
    rw [noClose_cons, Bool.and_eq_true] at hna
    simp only [run] at h
    cases hx : s.exec a with
    | none => simp [hx] at h
    | some s2 =>
      rw [hx] at h
      simp only [Option.some_bind] at h
      obtain ⟨a1, a2, a3, a4, a5, a6⟩ := exec_noClose_flow s s2 a f hna.1 hrun hopen hcons hx
      obtain ⟨b1, b2, b3, b4, b5, b6⟩ := ih s2 hna.2 a1 a2 a3 h
      refine ⟨b1, b2, b3, b4.trans a4, ?_, fun hf hff => b6 hf (a6 hf hff)⟩
      rw [b5, a5, published_cons a l, List.append_assoc]

theorem acknowledge_trace (s : Sys α σ) (cc : Option (Chan Unit)) :
    (s.acknowledge cc).trace = s.trace ∨
      ∃ ch, (s.acknowledge cc).trace = s.trace ++ [Effect.ack ch] := by
  unfold acknowledge
  split
  · exact Or.inl rfl
  · split
    · exact Or.inl rfl
    · exact Or.inl rfl
    · split
      · exact Or.inl rfl
      · exact Or.inr ⟨_, rfl⟩

theorem acknowledge_batches (s : Sys α σ) (cc : Option (Chan Unit)) :
    batches (s.acknowledge cc).trace = batches s.trace := by
  rcases acknowledge_trace s cc with h | ⟨ch, h⟩
  · rw [h]
  · rw [h]
    simp [batches, List.filterMap_append]

theorem acknowledge_faultFree (s : Sys α σ) (cc : Option (Chan Unit))
    (h : faultFree s.trace) : faultFree (s.acknowledge cc).trace := by
  rcases acknowledge_trace s cc with h1 | ⟨ch, h1⟩
  · rw [h1]
    exact h
  · rw [h1]
    intro src b hmem
    rcases List.mem_append.mp hmem with h2 | h2
    · exact h src b h2
    · simp at h2

theorem acknowledge_status (s : Sys α σ) (cc : Option (Chan Unit)) :
    (s.acknowledge cc).status ≠ Status.running := by
  unfold acknowledge
  split
  · simp
  · split
    · simp
    · simp
    · split <;> simp

/-- The close request of `ShutDown` followed by the close case, on a running task with an
open queue, an installed consumer and no close request pending: the batches grow by the
buffer followed by the queue, as one batch, unless that is empty. -/
theorem run_close [Inhabited α] (s s1 : Sys α σ) (f : List α → σ → Outcome × σ)
    (cc : Chan Unit) (hrun : s.status = Status.running)
    (hopen : s.task.collect.closed = false) (hcons : s.task.consumer = some f)
    (hcl : s.task.close = Chan.make 1)
    (h : s.run [Action.reqClose cc, Action.loop Event.close] = some s1) :
    (batches s1.trace).flatten = s.flow ∧ s1.task.collect.buf = [] ∧
    s1.task.collect.closed = true ∧ s1.status ≠ Status.running ∧
    ((∀ b w, (f b w).1 = Outcome.returned) → faultFree s.trace → faultFree s1.trace) := by
  simp only [run, exec, hcl, Chan.make, Chan.send, Bool.false_eq_true, if_false,
    List.length_nil, Nat.lt_one_iff, pos_of_gt, if_true, Option.some_bind,
    Option.bind_eq_some, Option.some.injEq, exists_eq_right, List.nil_append] at h
  have h3 := step_close_cons
    ({ s with task := { s.task with close := ⟨[cc], 1, false⟩ } } : Sys α σ) cc [] hrun rfl
  rw [h3] at h
  simp only [Option.some.injEq] at h
  subst h
  rw [onClose_open
    ({ s with task := { s.task with close := ⟨[cc], 1, false⟩ } } : Sys α σ) f _ _ hcons hopen]
  simp only
  split
  · refine ⟨?_, ?_, ?_, acknowledge_status _ _, ?_⟩
    · rw [acknowledge_batches]
      simp [batches_call, flow]
    · rw [acknowledge_task]
    · rw [acknowledge_task]
    · intro hf hff
      exact acknowledge_faultFree _ _ (faultFree_call _ _ _ _ hff (hf _ _))
  · rename_i hlen
    have hnil : s.task.data ++ s.task.collect.buf = [] := by
      cases hp : s.task.data ++ s.task.collect.buf with
      | nil => rfl
      | cons y ys => simp [hp] at hlen
    refine ⟨?_, ?_, ?_, acknowledge_status _ _, ?_⟩
    · rw [acknowledge_batches]
      simp only [flow, List.append_assoc, hnil, List.append_nil]
    · rw [acknowledge_task]
    · rw [acknowledge_task]
    · intro _ hff
      exact acknowledge_faultFree _ _ hff

end Sys

/-- C1. A task made by `newTask` with a consumer that never faults is started; publishers,
item arrivals and timer ticks interleave in any feasible way (`sched`), then the close
request is sent and handled. The batches handed to the consumer, concatenated in
invocation order, are exactly the published items in publish order, so every item is in
exactly one batch and every batch is a contiguous run; no call faulted and nothing is
left in the queue. This holds for every `maxDataLen` and every number of items, in
particular for `1 ≤ maxDataLen ≤ N`. -/
theorem batches_concat_publish_order {α σ : Type} [Inhabited α] (name : String)
    (channelLen collectTime : Nat) (maxDataLen : Int) (f : List α → σ → Outcome × σ)
    (w : σ) (sched : List (Action α)) (cc : Chan Unit) (s1 : Sys α σ)
    (hsched : noClose sched = true)
    (hf : ∀ b w, (f b w).1 = Outcome.returned)
    (h : (((newTask name channelLen collectTime maxDataLen).SetConsumer f).Async w).run
          (sched ++ [Action.reqClose cc, Action.loop Event.close]) = some s1) :
    (Sys.batches s1.trace).flatten = published sched ∧ faultFree s1.trace ∧
    s1.task.collect.buf = [] ∧ s1.status ≠ Status.running := by
  rw [Sys.run_append] at h
  cases h2 : (((newTask name channelLen collectTime maxDataLen).SetConsumer f).Async w).run
      sched with
  | none => simp [h2] at h
  | some s2 =>
    rw [h2] at h
    simp only [Option.some_bind] at h
    obtain ⟨a1, a2, a3, a4, a5, a6⟩ :=
      Sys.run_noClose_flow sched _ s2 f hsched rfl rfl rfl h2
    obtain ⟨b1, b2, _, b4, b5⟩ := Sys.run_close s2 s1 f cc a1 a2 a3 (a4.trans rfl) h
    refine ⟨?_, b5 hf (a6 hf (by intro src b hm; simp [Task.Async] at hm)), b2, b4⟩
    rw [b1, a5]
    simp [Sys.flow, Task.Async, Task.SetConsumer, newTask, Sys.batches, Chan.make]

theorem batches_concat_publish_order_witness :
    ∃ s1, (Demo.start 2 Demo.accept).run
          (Demo.mixed ++ [Action.reqClose Demo.cc, Action.loop Event.close]) = some s1 ∧
      Sys.batches s1.trace = [[1], [2, 3], [4]] ∧
      (Sys.batches s1.trace).flatten = published Demo.mixed := by
  have hs : ((Demo.start 2 Demo.accept).run
      (Demo.mixed ++ [Action.reqClose Demo.cc, Action.loop Event.close])).isSome = true := by
    decide
  have hb : ((Demo.start 2 Demo.accept).run
      (Demo.mixed ++ [Action.reqClose Demo.cc, Action.loop Event.close])).map
        (fun s => Sys.batches s.trace) = some [[1], [2, 3], [4]] := by
    decide
  obtain ⟨s1, h⟩ := Option.isSome_iff_exists.mp hs
  rw [h] at hb
  exact ⟨s1, h, by simpa using hb,
    (batches_concat_publish_order "cpu" 8 100 2 Demo.accept () Demo.mixed Demo.cc s1
      (by decide) (fun _ _ => rfl) h).1⟩

/-! ## Arrivals below the size threshold -/

namespace Sys

variable {α σ : Type}

theorem onlyArrivals_cons (a : Action α) (l : List (Action α)) :
    onlyArrivals (a :: l) = (onlyArrivals [a] && onlyArrivals l) := by
  simp [onlyArrivals]

theorem exec_arrival_quiet [Inhabited α] (s s1 : Sys α σ) (a : Action α)
    (hoa : onlyArrivals [a] = true) (hopen : s.task.collect.closed = false)
    (hlen : ((s.task.data ++ s.task.collect.buf ++ published [a]).length : Int)
      < s.task.maxDataLen)
    (h : s.exec a = some s1) :
    s1.task.collect.closed = false ∧
    s1.task.maxDataLen = s.task.maxDataLen ∧ s1.task.consumer = s.task.consumer ∧
    s1.status = s.status ∧ s1.trace = s.trace ∧ s1.world = s.world ∧
    s1.task.data ++ s1.task.collect.buf
      = s.task.data ++ s.task.collect.buf ++ published [a] := by
  cases a with
  | pub x =>
    obtain ⟨rfl, _⟩ := exec_pub_open s s1 x hopen h
    exact ⟨hopen, rfl, rfl, rfl, rfl, rfl, by simp [published]⟩
  | reqClose cc => simp [onlyArrivals] at hoa
  | loop e =>
    cases e with
    | close => simp [onlyArrivals] at hoa
    | tick => simp [onlyArrivals] at hoa
    | collect =>
      obtain ⟨x, rest, hb, rfl⟩ := exec_collect_open s s1 hopen h
      have hc : ¬ (0 < s.task.maxDataLen ∧
          s.task.maxDataLen ≤ (s.task.data.length : Int) + 1) := by
        simp only [hb, published, List.filterMap_cons, List.filterMap_nil, List.append_nil,
          List.length_append, List.length_cons, Nat.cast_add, Nat.cast_one] at hlen
        omega
      rw [onCollect_keep s x _ hc]
      exact ⟨hopen, rfl, rfl, rfl, rfl, rfl, by simp [published, hb]⟩

/-- Arrivals that stay below `maxDataLen`: no effect, and the buffer followed by the queue
grows by the published items. -/
theorem run_arrivals_quiet [Inhabited α] (sched : List (Action α)) (s s1 : Sys α σ)
    (hoa : onlyArrivals sched = true) (hopen : s.task.collect.closed = false)
    (hlen : ((s.task.data ++ s.task.collect.buf ++ published sched).length : Int)
      < s.task.maxDataLen)
    (h : s.run sched = some s1) :
    s1.task.collect.closed = false ∧
    s1.task.maxDataLen = s.task.maxDataLen ∧ s1.task.consumer = s.task.consumer ∧
    s1.status = s.status ∧ s1.trace = s.trace ∧ s1.world = s.world ∧
    s1.task.data ++ s1.task.collect.buf
      = s.task.data ++ s.task.collect.buf ++ published sched := by
  induction sched generalizing s with
  | nil =>
    simp only [run, Option.some.injEq] at h
    subst h
    exact ⟨hopen, rfl, rfl, rfl, rfl, rfl, by simp [published]⟩
  | cons a l ih =>
    rw [onlyArrivals_cons, Bool.and_eq_true] at hoa
    rw [published_cons a l] at hlen
    simp only [run] at h
    cases hx : s.exec a with
    | none => simp [hx] at h
    | some s2 =>
      rw [hx] at h
      simp only [Option.some_bind] at h
      have hlen1 : ((s.task.data ++ s.task.collect.buf ++ published [a]).length : Int)
          < s.task.maxDataLen := by
        simp only [List.length_append, Nat.cast_add] at hlen ⊢
        omega
      obtain ⟨a1, a2, a3, a4, a5, a6, a7⟩ := exec_arrival_quiet s s2 a hoa.1 hopen hlen1 hx
      have hlen2 : ((s2.task.data ++ s2.task.collect.buf ++ published l).length : Int)
          < s2.task.maxDataLen := by
        rw [a7, a2]
        simpa [List.append_assoc] using hlen
      obtain ⟨b1, b2, b3, b4, b5, b6, b7⟩ := ih s2 hoa.2 a1 hlen2 h
      refine ⟨b1, b2.trans a2, b3.trans a3, b4.trans a4, b5.trans a5, b6.trans a6, ?_⟩
      rw [b7, a7, published_cons a l]
      simp [List.append_assoc]

end Sys

/-- C6. The loop starts with an empty buffer and handles `N` item arrivals (the items
waiting in the queue at the start followed by the items published meanwhile) with
`N < maxDataLen`, no timer tick and no close request. Then the consumer has not been
invoked (the trace is unchanged) and the buffer holds exactly those `N` items in publish
order. -/
theorem arrivals_below_threshold_no_flush {α σ : Type} [Inhabited α]
    (s s1 : Sys α σ) (sched : List (Action α))
    (hopen : s.task.collect.closed = false) (hbuf : s.task.data = [])
    (hsched : onlyArrivals sched = true)
    (hN : ((s.task.collect.buf ++ published sched).length : Int) < s.task.maxDataLen)
    (h : s.run sched = some s1) (hall : s1.task.collect.buf = []) :
    s1.trace = s.trace ∧ s1.task.data = s.task.collect.buf ++ published sched ∧
    s1.task.data.length = (s.task.collect.buf ++ published sched).length := by
  have hlen : ((s.task.data ++ s.task.collect.buf ++ published sched).length : Int)
      < s.task.maxDataLen := by
    rw [hbuf]
    simpa using hN
  obtain ⟨_, _, _, _, a5, _, a7⟩ := Sys.run_arrivals_quiet sched s s1 hsched hopen hlen h
  rw [hall, hbuf, List.append_nil, List.nil_append] at a7
  exact ⟨a5, a7, by rw [a7]⟩

theorem arrivals_below_threshold_no_flush_witness :
    ∃ s1, (Demo.start 4 Demo.accept).run Demo.three = some s1 ∧
      s1.trace = [] ∧ s1.task.data = [1, 2, 3] ∧ s1.task.data.length = 3 := by
  have hs : ((Demo.start 4 Demo.accept).run Demo.three).isSome = true := by decide
  have hq : ((Demo.start 4 Demo.accept).run Demo.three).map
      (fun s => s.task.collect.buf) = some [] := by decide
  obtain ⟨s1, h⟩ := Option.isSome_iff_exists.mp hs
  rw [h] at hq
  exact ⟨s1, h,
    arrivals_below_threshold_no_flush (Demo.start 4 Demo.accept) s1 Demo.three rfl rfl
      (by decide) (by decide) h (by simpa using hq)⟩

/-- C7. The loop starts with an empty buffer and an installed consumer and handles `M`
item arrivals with `0 < M < maxDataLen` (no tick, no close). Handling one timer tick
then invokes the consumer exactly once, with exactly those `M` items in publish order,
and leaves the buffer empty; the loop keeps running. -/
theorem tick_flushes_pending {α σ : Type} [Inhabited α]
    (s s1 : Sys α σ) (sched : List (Action α)) (f : List α → σ → Outcome × σ)
    (hrun : s.status = Status.running) (hopen : s.task.collect.closed = false)
    (hcons : s.task.consumer = some f) (hbuf : s.task.data = [])
    (hsched : onlyArrivals sched = true)
    (hM0 : 0 < (s.task.collect.buf ++ published sched).length)
    (hM : ((s.task.collect.buf ++ published sched).length : Int) < s.task.maxDataLen)
    (h : s.run sched = some s1) (hall : s1.task.collect.buf = []) :
    ∃ s2, s1.step Event.tick = some s2 ∧
      s2.trace = s.trace ++ [Effect.call Event.tick (s.task.collect.buf ++ published sched)
        (f (s.task.collect.buf ++ published sched) s.world).1] ∧
      s2.task.data = [] ∧ s2.task.collect = s1.task.collect ∧
      s2.status = Status.running := by
  have hlen : ((s.task.data ++ s.task.collect.buf ++ published sched).length : Int)
      < s.task.maxDataLen := by
    rw [hbuf]
    simpa using hM
  obtain ⟨_, _, a3, a4, a5, a6, a7⟩ := Sys.run_arrivals_quiet sched s s1 hsched hopen hlen h
  rw [hall, hbuf, List.append_nil, List.nil_append] at a7
  have hrun1 : s1.status = Status.running := a4.trans hrun
  have hne : s1.task.data ≠ [] := by
    intro hnil
    rw [← a7, hnil] at hM0
    exact absurd hM0 (by simp)
  refine ⟨s1.onTick, by simp [Sys.step, hrun1], ?_⟩
  rw [Sys.onTick_flush s1 f (a3.trans hcons) hne, a7, a5, a6]
  exact ⟨rfl, rfl, rfl, hrun1⟩

theorem tick_flushes_pending_witness :
    ∃ s1 s2, (Demo.start 4 Demo.accept).run Demo.three = some s1 ∧
      s1.step Event.tick = some s2 ∧
      s2.trace = [Effect.call Event.tick [1, 2, 3] Outcome.returned] ∧
      s2.task.data = [] := by
  have hs : ((Demo.start 4 Demo.accept).run Demo.three).isSome = true := by decide
  have hq : ((Demo.start 4 Demo.accept).run Demo.three).map
      (fun s => s.task.collect.buf) = some [] := by decide
  obtain ⟨s1, h⟩ := Option.isSome_iff_exists.mp hs
  rw [h] at hq
  obtain ⟨s2, h1, h2, h3, _, _⟩ :=
    tick_flushes_pending (Demo.start 4 Demo.accept) s1 Demo.three Demo.accept rfl rfl rfl rfl
      (by decide) (by decide) (by decide) h (by simpa using hq)
  exact ⟨s1, s2, h, h1, h2, h3⟩

/-! ## Batch sizes -/

namespace Sys

variable {α σ : Type}

theorem callConsumer_mem (s : Sys α σ) (src : Event) (d : List α) (e : Effect α)
    (h : e ∈ (s.callConsumer src d).2.trace) :
    e ∈ s.trace ∨ ∃ r, e = Effect.call src d r := by
  rw [callConsumer_snd] at h
  unfold consumerCall at h
  split at h
  · exact Or.inl h
  · rcases List.mem_append.mp h with h1 | h1
    · exact Or.inl h1
    · exact Or.inr ⟨_, by simpa using h1⟩

theorem acknowledge_mem (s : Sys α σ) (cc : Option (Chan Unit)) (e : Effect α)
    (h : e ∈ (s.acknowledge cc).trace) : e ∈ s.trace ∨ ∃ ch, e = Effect.ack ch := by
  rcases acknowledge_trace s cc with h1 | ⟨ch, h1⟩
  · rw [h1] at h
    exact Or.inl h
  · rw [h1] at h
    rcases List.mem_append.mp h with h2 | h2
    · exact Or.inl h2
    · exact Or.inr ⟨ch, by simpa using h2⟩

theorem batchBounds_of_mem (m : Int) (c : Nat) (tr tr1 : List (Effect α))
    (h : batchBounds m c tr)
    (hnew : ∀ src b r, Effect.call src b r ∈ tr1 → Effect.call src b r ∈ tr ∨
      (b ≠ [] ∧ (src = Event.collect → (b.length : Int) = m) ∧
        (src = Event.tick → (b.length : Int) < m) ∧
        (src = Event.close → (b.length : Int) < m + c))) :
    batchBounds m c tr1 := by
  intro src b r hmem
  rcases hnew src b r hmem with h1 | h1
  · exact h src b r h1
  · exact h1

theorem onCollect_sized (m : Int) (c : Nat) (s : Sys α σ) (x : α) (ch : Chan α)
    (hrun : s.status = Status.running) (hs : s.sized m c)
    (hcap : ch.cap = c) (hlen : ch.buf.length ≤ c) : (s.onCollect x ch).sized m c := by
  obtain ⟨h1, _, _, h4, h5⟩ := hs
  have hd := h4 hrun
  by_cases hc : 0 < s.task.maxDataLen ∧ s.task.maxDataLen ≤ (s.task.data.length : Int) + 1
  · have hm : ((s.task.data ++ [x]).length : Int) = m := by
      simp only [List.length_append, List.length_singleton, Nat.cast_add, Nat.cast_one]
      omega
    unfold onCollect
    simp only [List.length_append, List.length_singleton, Nat.cast_add, Nat.cast_one]
    rw [if_pos hc, if_pos (Nat.succ_pos _), resume_callConsumer]
    simp only [id_eq]
    refine ⟨?_, ?_, ?_, ?_, ?_⟩
    · rw [callConsumer_task]
      exact h1
    · rw [callConsumer_task]
      exact hcap
    · rw [callConsumer_task]
      exact hlen
    · intro _
      rw [callConsumer_task]
      simp only [List.length_nil, Nat.cast_zero]
      omega
    · apply batchBounds_of_mem m c s.trace _ h5
      intro src b r hmem
      rcases callConsumer_mem _ _ _ _ hmem with h6 | ⟨r1, h6⟩
      · exact Or.inl h6
      · simp only [Effect.call.injEq] at h6
        obtain ⟨rfl, rfl, _⟩ := h6
        refine Or.inr ⟨by simp, fun _ => hm, by simp, by simp⟩
  · rw [onCollect_keep s x ch hc]
    refine ⟨h1, hcap, hlen, ?_, h5⟩
    intro _
    simp only [List.length_append, List.length_singleton, Nat.cast_add, Nat.cast_one]
    omega

theorem onTick_sized (m : Int) (c : Nat) (s : Sys α σ)
    (hrun : s.status = Status.running) (hs : s.sized m c) : s.onTick.sized m c := by
  by_cases hd : s.task.data = []
  · rw [onTick_idle s hd]
    exact hs
  · obtain ⟨h1, h2, h3, h4, h5⟩ := hs
    have hlt := h4 hrun
    have hpos : 0 < s.task.data.length := List.length_pos.mpr hd
    unfold onTick
    simp only [hpos, if_true, resume_callConsumer, id_eq]
    refine ⟨?_, ?_, ?_, ?_, ?_⟩
    · rw [callConsumer_task]
      exact h1
    · rw [callConsumer_task]
      exact h2
    · rw [callConsumer_task]
      exact h3
    · intro _
      rw [callConsumer_task]
      simp only [List.length_nil, Nat.cast_zero]
      omega
    · apply batchBounds_of_mem m c s.trace _ h5
      intro src b r hmem
      rcases callConsumer_mem _ _ _ _ hmem with h6 | ⟨r1, h6⟩
      · exact Or.inl h6
      · simp only [Effect.call.injEq] at h6
        obtain ⟨rfl, rfl, _⟩ := h6
        exact Or.inr ⟨hd, by simp, fun _ => hlt, by simp⟩

theorem onClose_sized (m : Int) (c : Nat) (s : Sys α σ) (cc : Option (Chan Unit))
    (cl : Chan (Chan Unit)) (hrun : s.status = Status.running) (hs : s.sized m c) :
    (s.onClose cc cl).sized m c := by
  obtain ⟨h1, h2, h3, h4, h5⟩ := hs
  have hd := h4 hrun
  unfold onClose
  simp only [Chan.close, Chan.drain]
  cases hcl : s.task.collect.closed
  · simp only [Bool.false_eq_true, if_false]
    split
    · rename_i hpos
      rw [resume_callConsumer]
      refine ⟨?_, ?_, ?_, fun hr => absurd hr (acknowledge_status _ _), ?_⟩
      · rw [acknowledge_task, callConsumer_task]
        exact h1
      · rw [acknowledge_task, callConsumer_task]
        exact h2
      · rw [acknowledge_task, callConsumer_task]
        exact Nat.zero_le _
      · apply batchBounds_of_mem m c s.trace _ h5
        intro src b r hmem
        rcases acknowledge_mem _ _ _ hmem with h6 | ⟨ch, h6⟩
        · rcases callConsumer_mem _ _ _ _ h6 with h7 | ⟨r1, h7⟩
          · exact Or.inl h7
          · simp only [Effect.call.injEq] at h7
            obtain ⟨rfl, rfl, _⟩ := h7
            refine Or.inr ⟨List.length_pos.mp hpos, by simp, by simp, fun _ => ?_⟩
            simp only [List.length_append, Nat.cast_add]
            omega
        · exact absurd h6 (by simp)
    · refine ⟨?_, ?_, ?_, fun hr => absurd hr (acknowledge_status _ _), ?_⟩
      · rw [acknowledge_task]
        exact h1
      · rw [acknowledge_task]
        exact h2
      · rw [acknowledge_task]
        exact Nat.zero_le _
      · apply batchBounds_of_mem m c s.trace _ h5
        intro src b r hmem
        rcases acknowledge_mem _ _ _ hmem with h6 | ⟨ch, h6⟩
        · exact Or.inl h6
        · exact absurd h6 (by simp)
  · simp only [if_true]
    exact ⟨h1, h2, h3, fun hr => absurd hr (by simp), h5⟩

theorem recv_sized {β : Type} (c c1 : Chan β) (v : Option β)
    (h : c.recv = some (v, c1)) : c1.cap = c.cap ∧ c1.buf.length ≤ c.buf.length := by
  unfold Chan.recv at h
  split at h
  · rename_i x rest hb
    simp only [Option.some.injEq, Prod.mk.injEq] at h
    obtain ⟨_, rfl⟩ := h
    simp [hb]
  · split at h
    · simp only [Option.some.injEq, Prod.mk.injEq] at h
      obtain ⟨_, rfl⟩ := h
      exact ⟨rfl, le_refl _⟩
    · exact absurd h (by simp)

theorem pub_cases (t t1 : Task α σ) (x : α) (err : Option String)
    (h : t.Pub x = PubResult.returned err t1) :
    t1 = t ∨ (t.collect.buf.length < t.collect.cap ∧
      t1 = { t with collect := { t.collect with buf := t.collect.buf ++ [x] } }) := by
  unfold Task.Pub Chan.send at h
  cases hc : t.collect.closed
  · by_cases hlt : t.collect.buf.length < t.collect.cap
    · simp only [hc, Bool.false_eq_true, if_false, hlt, if_true, PubResult.returned.injEq] at h
      refine Or.inr ⟨hlt, ?_⟩
      rw [← h.2]
      simp [hc]
    · simp [hc, hlt] at h
  · simp only [hc, if_true, PubResult.returned.injEq] at h
    exact Or.inl h.2.symm

/-- Every action keeps the size invariant. -/
theorem exec_sized [Inhabited α] (m : Int) (c : Nat) (s s1 : Sys α σ) (a : Action α)
    (hs : s.sized m c) (h : s.exec a = some s1) : s1.sized m c := by
  cases a with
  | pub x =>
    simp only [exec] at h
    split at h
    · rename_i err t hp
      simp only [Option.some.injEq] at h
      subst h
      obtain ⟨h1, h2, h3, h4, h5⟩ := hs
      rcases pub_cases s.task t x err hp with rfl | ⟨hlt, rfl⟩
      · exact ⟨h1, h2, h3, h4, h5⟩
      · exact ⟨h1, h2, by simp only [List.length_append, List.length_singleton]; omega,
          h4, h5⟩
    · exact absurd h (by simp)
  | reqClose cc =>
    simp only [exec] at h
    split at h
    · simp only [Option.some.injEq] at h
      subst h
      exact hs
    · exact absurd h (by simp)
  | loop e =>
    have hrun := exec_loop_running s s1 e h
    simp only [exec, step, hrun, ne_eq, not_true_eq_false, if_false] at h
    cases e with
    | collect =>
      simp only at h
      split at h
      · exact absurd h (by simp)
      · rename_i v ch hr
        simp only [Option.some.injEq] at h
        subst h
        obtain ⟨r1, r2⟩ := recv_sized _ _ _ hr
        exact onCollect_sized m c s _ ch hrun hs (r1.trans hs.2.1) (le_trans r2 hs.2.2.1)
    | tick =>
      simp only [Option.some.injEq] at h
      subst h
      exact onTick_sized m c s hrun hs
    | close =>
      simp only at h
      split at h
      · exact absurd h (by simp)
      · simp only [Option.some.injEq] at h
        subst h
        exact onClose_sized m c s _ _ hrun hs

theorem run_sized [Inhabited α] (m : Int) (c : Nat) (sched : List (Action α))
    (s s1 : Sys α σ) (hs : s.sized m c) (h : s.run sched = some s1) : s1.sized m c := by
  induction sched generalizing s with
  | nil =>
    simp only [run, Option.some.injEq] at h
    subst h
    exact hs
  | cons a l ih =>
    simp only [run] at h
    cases hx : s.exec a with
    | none => simp [hx] at h
    | some s2 =>
      rw [hx] at h
      exact ih s2 (exec_sized m c s s2 a hs hx) h

end Sys

/-- C4 as stated fails for the final flush on close: with `maxDataLen = 2`, three items
are published before the loop handles any of them, then the close request is sent and
handled. The close case drains the queue into the buffer and hands the consumer one
batch of three items. -/
theorem batch_at_most_max_counterexample :
    ∃ s1, (Demo.start 2 Demo.accept).run Demo.burst = some s1 ∧
      Sys.batches s1.trace = [[1, 2, 3]] ∧
      ¬ (([1, 2, 3] : List Nat).length : Int) ≤ s1.task.maxDataLen := by
  have hs : ((Demo.start 2 Demo.accept).run Demo.burst).isSome = true := by decide
  have hb : ((Demo.start 2 Demo.accept).run Demo.burst).map
      (fun s => (Sys.batches s.trace, s.task.maxDataLen)) = some ([[1, 2, 3]], 2) := by
    decide
  obtain ⟨s1, h⟩ := Option.isSome_iff_exists.mp hs
  rw [h] at hb
  simp only [Option.map_some', Option.some.injEq, Prod.mk.injEq] at hb
  exact ⟨s1, h, hb.1, by rw [hb.2]; decide⟩

/-- C4 (amended). A task made by `newTask` with `maxDataLen` at least 1 and queue capacity
`channelLen`, started with any consumer and run under any schedule: every batch handed
to the consumer is non-empty; a batch of the size trigger has exactly `maxDataLen`
items and a batch of a timer tick fewer, so the buffer never exceeds `maxDataLen` when
those flush it; the final batch of the close case is the buffer together with the whole
queue and has fewer than `maxDataLen + channelLen` items. While the loop runs the
buffer is shorter than `maxDataLen` between two events. -/
theorem batch_sizes_bounded {α σ : Type} [Inhabited α] (name : String)
    (channelLen collectTime : Nat) (maxDataLen : Int) (f : List α → σ → Outcome × σ)
    (w : σ) (sched : List (Action α)) (s1 : Sys α σ) (hm : 1 ≤ maxDataLen)
    (h : (((newTask name channelLen collectTime maxDataLen).SetConsumer f).Async w).run
          sched = some s1) :
    (∀ src b r, Effect.call src b r ∈ s1.trace → b ≠ [] ∧
      (src = Event.collect → (b.length : Int) = maxDataLen) ∧
      (src = Event.tick → (b.length : Int) < maxDataLen) ∧
      (src = Event.close → (b.length : Int) < maxDataLen + channelLen)) ∧
    (s1.status = Status.running → (s1.task.data.length : Int) < maxDataLen) := by
  have h0 : (((newTask name channelLen collectTime maxDataLen).SetConsumer f).Async
      w).sized maxDataLen channelLen := by
    refine ⟨rfl, rfl, Nat.zero_le _, fun _ => ?_, ?_⟩
    · simp only [Task.Async, Task.SetConsumer, newTask, List.length_nil, Nat.cast_zero]
      omega
    · intro src b r hmem
      simp [Task.Async] at hmem
  obtain ⟨_, _, _, h4, h5⟩ := Sys.run_sized maxDataLen channelLen sched _ s1 h0 h
  exact ⟨h5, h4⟩

theorem batch_sizes_bounded_witness :
    ∃ s1, (Demo.start 2 Demo.accept).run Demo.burst = some s1 ∧
      ∀ src b r, Effect.call src b r ∈ s1.trace → b ≠ [] ∧
        (src = Event.collect → (b.length : Int) = 2) ∧
        (src = Event.tick → (b.length : Int) < 2) ∧
        (src = Event.close → (b.length : Int) < 2 + (8 : Nat)) := by
  have hs : ((Demo.start 2 Demo.accept).run Demo.burst).isSome = true := by decide
  obtain ⟨s1, h⟩ := Option.isSome_iff_exists.mp hs
  exact ⟨s1, h,
    (batch_sizes_bounded "cpu" 8 100 2 Demo.accept () Demo.burst s1 (by decide) h).1⟩

/-! ## Consumer faults -/

namespace Sys

variable {α σ : Type}

theorem shape_callConsumer (s : Sys α σ) (src : Event) (d : List α) :
    (s.callConsumer src d).2.shape = (s.shape.callConsumer src d).2 := by
  rw [callConsumer_snd, callConsumer_snd]
  unfold consumerCall
  cases hf : s.task.consumer with
  | none => simp [shape, hf]
  | some f => simp [shape, hf, Effect.forget]

theorem shape_acknowledge (s : Sys α σ) (cc : Option (Chan Unit)) :
    (s.acknowledge cc).shape = s.shape.acknowledge cc := by
  unfold acknowledge
  cases cc with
  | none => rfl
  | some ch =>
    simp only
    cases ch.send () with
    | blocked => rfl
    | panicked => rfl
    | sent ch1 =>
      simp only
      cases ch1.close with
      | none => rfl
      | some ch2 => simp [shape, Effect.forget]

theorem shape_onCollect (s : Sys α σ) (x : α) (c : Chan α) :
    (s.onCollect x c).shape = s.shape.onCollect x c := by
  unfold onCollect
  simp only [resume_callConsumer, id_eq]
  by_cases hc : 0 < s.task.maxDataLen ∧
      s.task.maxDataLen ≤ ((s.task.data ++ [x]).length : Int)
  · have hc1 : 0 < s.shape.task.maxDataLen ∧
        s.shape.task.maxDataLen ≤ ((s.shape.task.data ++ [x]).length : Int) := hc
    rw [if_pos hc, if_pos hc1]
    have hp : 0 < (s.task.data ++ [x]).length := by simp
    have hp1 : 0 < (s.shape.task.data ++ [x]).length := hp
    rw [if_pos hp, if_pos hp1, shape_callConsumer]
    rfl
  · have hc1 : ¬ (0 < s.shape.task.maxDataLen ∧
        s.shape.task.maxDataLen ≤ ((s.shape.task.data ++ [x]).length : Int)) := hc
    rw [if_neg hc, if_neg hc1]
    rfl

theorem shape_onTick (s : Sys α σ) : s.onTick.shape = s.shape.onTick := by
  unfold onTick
  simp only [resume_callConsumer, id_eq]
  by_cases hp : 0 < s.task.data.length
  · have hp1 : 0 < s.shape.task.data.length := hp
    rw [if_pos hp, if_pos hp1, shape_callConsumer]
    rfl
  · have hp1 : ¬ 0 < s.shape.task.data.length := hp
    rw [if_neg hp, if_neg hp1]
    rfl

theorem shape_onClose (s : Sys α σ) (cc : Option (Chan Unit)) (cl : Chan (Chan Unit)) :
    (s.onClose cc cl).shape = s.shape.onClose cc cl := by
  unfold onClose
  simp only [resume_callConsumer]
  have hcol : s.shape.task.collect = s.task.collect := rfl
  have hdat : s.shape.task.data = s.task.data := rfl
  simp only [hcol, hdat]
  cases s.task.collect.close with
  | none => rfl
  | some c1 =>
    simp only
    by_cases hp : 0 < (s.task.data ++ c1.drain.1).length
    · rw [if_pos hp, if_pos hp, shape_acknowledge, shape_callConsumer]
      rfl
    · rw [if_neg hp, if_neg hp, shape_acknowledge]
      rfl

theorem shape_step [Inhabited α] (s : Sys α σ) (e : Event) :
    (s.step e).map shape = s.shape.step e := by
  unfold step
  have hst : s.shape.status = s.status := rfl
  have hcol : s.shape.task.collect = s.task.collect := rfl
  have hcl : s.shape.task.close = s.task.close := rfl
  simp only [hst, hcol, hcl]
  by_cases hr : s.status ≠ Status.running
  · rw [if_pos hr, if_pos hr]
    rfl
  · rw [if_neg hr, if_neg hr]
    cases e with
    | collect =>
      simp only
      cases s.task.collect.recv with
      | none => rfl
      | some p => simp [shape_onCollect]
    | tick => simp [shape_onTick]
    | close =>
      simp only
      cases s.task.close.recv with
      | none => rfl
      | some p => simp [shape_onClose]

theorem shape_exec [Inhabited α] (s : Sys α σ) (a : Action α) :
    (s.exec a).map shape = s.shape.exec a := by
  cases a with
  | loop e => exact shape_step s e
  | reqClose cc =>
    simp only [exec]
    have hcl : s.shape.task.close = s.task.close := rfl
    rw [hcl]
    cases s.task.close.send cc <;> rfl
  | pub x =>
    simp only [exec, Task.Pub]
    have hcol : s.shape.task.collect = s.task.collect := rfl
    rw [hcol]
    cases s.task.collect.send x <;> rfl

theorem shape_run [Inhabited α] (sched : List (Action α)) (s : Sys α σ) :
    (s.run sched).map shape = s.shape.run sched := by
  induction sched generalizing s with
  | nil => rfl
  | cons a l ih =>
    simp only [run]
    rw [← shape_exec]
    cases s.exec a with
    | none => rfl
    | some s1 => simpa using ih s1

theorem shape_install (s : Sys α σ) (f g : List α → σ → Outcome × σ) (w1 w2 : σ) :
    (s.install f w1).shape = (s.install g w2).shape := rfl

end Sys

/-- C9. A fault of the consumer stays inside `callConsumer`: the method returns normally
whatever the consumer does, makes exactly one invocation and leaves the task (buffer and
queue) as it is, so the batch is neither retried nor put back. Along every schedule the
loop state without the consumer's own state and results (buffer, queue, close channel,
goroutine state, the batches handed over and the acknowledgments) is the same for any
two consumers `f` and `g`, in particular for one that faults and one that never does:
later batches are still handed to a consumer that faulted before. -/
theorem consumer_fault_isolated {α σ : Type} [Inhabited α] (s : Sys α σ)
    (f g : List α → σ → Outcome × σ) (w1 w2 : σ) (src : Event) (d : List α)
    (sched : List (Action α)) :
    (s.install f w1).callConsumer src d =
      (Outcome.returned,
        { s.install f w1 with
          world := (f d w1).2,
          trace := s.trace ++ [Effect.call src d (f d w1).1] }) ∧
    ((s.install f w1).run sched).map Sys.shape =
      ((s.install g w2).run sched).map Sys.shape := by
  constructor
  · have h1 := Sys.callConsumer_fst (s.install f w1) src d
    have h2 := Sys.callConsumer_some (s.install f w1) src d f rfl
    exact Prod.ext h1 h2
  · rw [Sys.shape_run, Sys.shape_run, Sys.shape_install s f g w1 w2]

theorem consumer_fault_isolated_witness :
    ((Demo.fresh.install Demo.failFirst 0).run
        (Demo.mixed ++ [Action.reqClose Demo.cc, Action.loop Event.close])).map
        (fun s => s.trace) =
      some [Effect.call Event.tick [1] Outcome.panicked,
            Effect.call Event.collect [2, 3] Outcome.returned,
            Effect.call Event.close [4] Outcome.returned,
            Effect.ack ⟨[()], 1, true⟩] ∧
    ((Demo.fresh.install Demo.failFirst 0).run
        (Demo.mixed ++ [Action.reqClose Demo.cc, Action.loop Event.close])).map Sys.shape =
      ((Demo.fresh.install Demo.counting 0).run
        (Demo.mixed ++ [Action.reqClose Demo.cc, Action.loop Event.close])).map Sys.shape :=
  ⟨by decide,
    (consumer_fault_isolated Demo.fresh Demo.failFirst Demo.counting 0 0 Event.tick []
      (Demo.mixed ++ [Action.reqClose Demo.cc, Action.loop Event.close])).2⟩

/-! ## The registry accessors -/

namespace Registry

variable {α σ : Type}

theorem lookup_filter_ne (m : List (String × Nat)) (name other : String)
    (h : other ≠ name) :
    (m.filter (fun p => p.1 ≠ name)).lookup other = m.lookup other := by
  induction m with
  | nil => rfl
  | cons p rest ih =>
    obtain ⟨k, v⟩ := p
    by_cases hk : k = name
    · subst hk
      have hne : (other == k) = false := by simpa using h
      simpa [List.filter_cons, List.lookup_cons, hne] using ih
    · by_cases ho : other = k
      · subst ho
        simp [List.filter_cons, List.lookup_cons, hk]
      · have hne : (other == k) = false := by simpa using ho
        simpa [List.filter_cons, List.lookup_cons, hk, hne] using ih

theorem get_store_same (r : Registry α σ) (name : String) (t : Task α σ) :
    (r.store name t).get name = some r.heap.length := by
  simp [get, store, List.lookup_cons]

theorem get_store_other (r : Registry α σ) (name other : String) (t : Task α σ)
    (h : other ≠ name) : (r.store name t).get other = r.get other := by
  have hne : (other == name) = false := by simpa using h
  simp only [get, store, List.lookup_cons, hne]
  exact lookup_filter_ne r.tasks name other h

theorem wf_unique (r : Registry α σ) (h : r.wf) (i j : Nat) (t u : Task α σ)
    (hi : r.heap[i]? = some t) (hj : r.heap[j]? = some u) (hn : t.name = u.name) :
    i = j := by
  have h1 := h.2 i t hi
  have h2 := h.2 j u hj
  rw [hn, h2] at h1
  exact (Option.some.inj h1).symm

theorem wf_store (r : Registry α σ) (name : String) (t : Task α σ) (h : r.wf)
    (hnone : r.get name = none) (hname : t.name = name) : (r.store name t).wf := by
  refine ⟨?_, ?_⟩
  · simp only [store, List.map_cons, List.nodup_cons]
    refine ⟨?_, ?_⟩
    · intro hmem
      obtain ⟨p, hp, hp1⟩ := List.mem_map.mp hmem
      have := (List.mem_filter.mp hp).2
      simp [hp1] at this
    · exact (h.1.sublist
        ((List.filter_sublist r.tasks).map Prod.fst))
  · intro i u hu
    by_cases hi : i < r.heap.length
    · have hu1 : r.heap[i]? = some u := by
        simpa [store, List.getElem?_append_left hi] using hu
      have hget := h.2 i u hu1
      have hne : u.name ≠ name := by
        intro heq
        rw [heq, hnone] at hget
        exact absurd hget (by simp)
      rw [get_store_other r name u.name t hne]
      exact hget
    · have hlen : i < (r.heap ++ [t]).length := by
        by_contra hge
        have : (r.store name t).heap[i]? = none := by
          simp only [store]
          exact List.getElem?_eq_none (Nat.le_of_not_lt hge)
        rw [this] at hu
        exact absurd hu (by simp)
      simp only [List.length_append, List.length_singleton] at hlen
      have hieq : i = r.heap.length := by omega
      subst hieq
      have hut : u = t := by
        simpa [store] using hu.symm
      rw [hut, hname]
      exact get_store_same r name t

theorem newTask_args (name : String) :
    (newTask name (channelLen * 5) (second * 5) channelLen : Task α σ) =
      newTask name 5120 5000000000 1024 := rfl

/-- The common body of the three accessors is a get-or-create for its name. -/
theorem getOrCreate_of_body (acc : Registry α σ → Option Nat × Registry α σ)
    (name : String)
    (hacc : ∀ r, acc r =
      match r.get name with
      | some t => (some t, r)
      | none =>
        ((r.store name (newTask name (channelLen * 5) (second * 5) channelLen)).get name,
          r.store name (newTask name (channelLen * 5) (second * 5) channelLen))) :
    GetOrCreate acc name := by
  intro r
  cases hg : r.get name with
  | some p =>
    have h1 : acc r = (some p, r) := by rw [hacc r, hg]
    refine ⟨fun h => absurd h (by simp), ?_, ?_, ?_, ?_⟩
    · intro q hq
      rw [h1, Option.some.inj hq]
    · rw [h1]
      exact h1
    · intro other _
      rw [h1]
    · intro hwf
      rw [h1]
      exact ⟨hwf, wf_unique r hwf⟩
  | none =>
    have h1 : acc r =
        (some r.heap.length, r.store name (newTask name 5120 5000000000 1024)) := by
      rw [hacc r, hg]
      simp only [newTask_args, get_store_same]
    have h2 : acc (r.store name (newTask name 5120 5000000000 1024)) =
        (some r.heap.length, r.store name (newTask name 5120 5000000000 1024)) := by
      rw [hacc, get_store_same]
    refine ⟨fun _ => ?_, ?_, ?_, ?_, ?_⟩
    · rw [h1]
      exact ⟨rfl, rfl, get_store_same r name _⟩
    · intro q hq
      exact absurd hq (by simp)
    · rw [h1]
      exact h2
    · intro other hne
      rw [h1]
      exact get_store_other r name other _ hne
    · intro hwf
      rw [h1]
      have hwf1 := wf_store r name (newTask name 5120 5000000000 1024) hwf hg rfl
      exact ⟨hwf1, wf_unique _ hwf1⟩

end Registry

/-- C10. Each of `CPUTask`, `MemoryTask` and `IOTask` is a get-or-create for its name
(`GetOrCreate`): an unregistered name gets exactly one new task made by `newTask` with
that name, which is registered and returned; a registered name yields the existing task
and leaves the registry unchanged; so a second call returns the same task as the first,
entries under other names are untouched, and the registry keeps at most one task per
name. The registry at program start is well-formed. -/
theorem accessors_get_or_create {α σ : Type} :
    GetOrCreate (CPUTask : Registry α σ → Option Nat × Registry α σ) "cpu" ∧
    GetOrCreate (MemoryTask : Registry α σ → Option Nat × Registry α σ) "memory" ∧
    GetOrCreate (IOTask : Registry α σ → Option Nat × Registry α σ) "io" ∧
    (Registry.empty : Registry α σ).wf := by
  refine ⟨?_, ?_, ?_, ?_⟩
  · apply Registry.getOrCreate_of_body
    intro r
    rfl
  · apply Registry.getOrCreate_of_body
    intro r
    rfl
  · apply Registry.getOrCreate_of_body
    intro r
    rfl
  · refine ⟨by simp [Registry.empty], ?_⟩
    intro i t h
    simp [Registry.empty] at h

theorem accessors_get_or_create_witness :
    ((CPUTask (Registry.empty : Registry Nat Unit)).1 = some 0 ∧
      (CPUTask (Registry.empty : Registry Nat Unit)).2.get "cpu" = some 0) ∧
    CPUTask (CPUTask (Registry.empty : Registry Nat Unit)).2 =
      ((CPUTask (Registry.empty : Registry Nat Unit)).1,
        (CPUTask (Registry.empty : Registry Nat Unit)).2) := by
  have h := (accessors_get_or_create (α := Nat) (σ := Unit)).1 Registry.empty
  exact ⟨⟨(h.1 rfl).1, (h.1 rfl).2.2⟩, h.2.2.1⟩

/-! ## The line parsers -/

theorem index_lt (fields : List String) (i : Nat) (h : i < fields.length) :
    index fields i = Except.ok fields[i] := by
  simp [index, List.getElem?_eq_getElem h]

theorem index_ge (fields : List String) (i : Nat) (h : fields.length ≤ i) :
    index fields i = Except.error (Fault.indexOutOfRange i fields.length) := by
  simp [index, List.getElem?_eq_none h]

theorem outOfRange_convert_bind {β γ : Type} (what : String) (r : Except String β)
    (k : β → Except Fault γ) (h : ∀ v, outOfRange (k v) = false) :
    outOfRange (convert what r >>= k) = false := by
  cases r with
  | ok v => exact h v
  | error e => rfl

/-- The guard of `parseIOStats` is enough: the largest index it reads is 7, so no line
makes it panic. -/
theorem parseIOStats_in_range {F T : Type} (atoi : String → Except String Int)
    (parseFloat : String → Except String F) (ip : String) (now : T) (line : String) :
    outOfRange (parseIOStats atoi parseFloat ip now line) = false := by
  unfold parseIOStats
  simp only
  generalize Fields line = fields
  by_cases hlen : fields.length < 8
  · rw [if_pos hlen]
    rfl
  · rw [if_neg hlen]
    have h8 : 8 ≤ fields.length := Nat.le_of_not_lt hlen
    rw [index_lt fields 2 (by omega), index_lt fields 4 (by omega),
      index_lt fields 5 (by omega), index_lt fields 6 (by omega),
      index_lt fields 7 (by omega), index_lt fields 3 (by omega),
      index_lt fields (fields.length - 1) (by omega)]
    simp only [Except.bind, bind, pure, Except.pure]
    apply outOfRange_convert_bind
    intro pid
    apply outOfRange_convert_bind
    intro v4
    apply outOfRange_convert_bind
    intro v5
    apply outOfRange_convert_bind
    intro v6
    cases parseFloat fields[7] <;> rfl

/-- With nine fields or more `parseCPUStats` and `parseMemoryStats` stay in range: the
guard that would be enough for them is `len(fields) < 9`. -/
theorem parse_in_range_of_nine {F T : Type} (atoi : String → Except String Int)
    (parseFloat : String → Except String F) (ip : String) (now : T) (line : String)
    (h9 : 9 ≤ (Fields line).length) :
    outOfRange (parseCPUStats atoi parseFloat ip now line) = false ∧
    outOfRange (parseMemoryStats atoi parseFloat ip now line) = false := by
  unfold parseCPUStats parseMemoryStats
  simp only
  generalize Fields line = fields at h9
  have hlen : ¬ fields.length < 8 := by omega
  rw [if_neg hlen, if_neg hlen]
  rw [index_lt fields 2 (by omega), index_lt fields 4 (by omega),
    index_lt fields 5 (by omega), index_lt fields 6 (by omega),
    index_lt fields 7 (by omega), index_lt fields 8 (by omega),
    index_lt fields 3 (by omega), index_lt fields (fields.length - 1) (by omega)]
  simp only [Except.bind, bind, pure, Except.pure]
  constructor
  · apply outOfRange_convert_bind
    intro pid
    apply outOfRange_convert_bind
    intro v4
    apply outOfRange_convert_bind
    intro v5
    apply outOfRange_convert_bind
    intro v6
    apply outOfRange_convert_bind
    intro v7
    apply outOfRange_convert_bind
    intro v8
    rfl
  · apply outOfRange_convert_bind
    intro pid
    apply outOfRange_convert_bind
    intro v5
    apply outOfRange_convert_bind
    intro v6
    apply outOfRange_convert_bind
    intro v7
    apply outOfRange_convert_bind
    intro v8
    rfl

/-- C13 (the code where the claim fails). A line of exactly eight fields passes the
guard `len(fields) < 8`. When its numeric fields are well-formed (`atoi` accepts field 2,
`parseFloat` accepts fields 4 to 7), `parseCPUStats` and `parseMemoryStats` go on to
read `fields[8]` and panic with index 8 out of range for length 8, while `parseIOStats`,
whose largest index is 7, returns a record. -/
theorem parse_eight_fields_out_of_range {F T : Type} (atoi : String → Except String Int)
    (parseFloat : String → Except String F) (ip : String) (now : T) (line : String)
    (a0 a1 a2 a3 a4 a5 a6 a7 : String) (pid : Int) (v4 v5 v6 v7 : F)
    (hfields : Fields line = [a0, a1, a2, a3, a4, a5, a6, a7])
    (hpid : atoi a2 = Except.ok pid) (h4 : parseFloat a4 = Except.ok v4)
    (h5 : parseFloat a5 = Except.ok v5) (h6 : parseFloat a6 = Except.ok v6)
    (h7 : parseFloat a7 = Except.ok v7) :
    parseCPUStats atoi parseFloat ip now line =
      Except.error (Fault.indexOutOfRange 8 8) ∧
    parseMemoryStats atoi parseFloat ip now line =
      Except.error (Fault.indexOutOfRange 8 8) ∧
    parseIOStats atoi parseFloat ip now line =
      Except.ok { ID := 0, IP := ip, Timestamp := now, PID := pid, User := a3,
                  ReadKBPS := v4, WriteKBPS := v5, KBCCWR := v6, IODelay := v7,
                  Command := a7 } := by
  unfold parseCPUStats parseMemoryStats parseIOStats
  simp only [hfields]
  refine ⟨?_, ?_, ?_⟩
  · simp [index, convert, hpid, h4, h5, h6, h7, bind, Except.bind]
  · simp [index, convert, hpid, h5, h6, h7, bind, Except.bind]
  · simp [index, convert, hpid, h4, h5, h6, h7, bind, Except.bind, pure, Except.pure]

theorem parse_eight_fields_out_of_range_witness :
    Fields Demo.eight = ["10:00:01", "0", "1234", "root", "1.50", "2.25", "0.00", "3.75"] ∧
    parseCPUStats Demo.atoi Demo.parseFloat "10.0.0.1" (0 : Nat) Demo.eight =
      Except.error (Fault.indexOutOfRange 8 8) ∧
    parseMemoryStats Demo.atoi Demo.parseFloat "10.0.0.1" (0 : Nat) Demo.eight =
      Except.error (Fault.indexOutOfRange 8 8) :=
  have h := parse_eight_fields_out_of_range Demo.atoi Demo.parseFloat "10.0.0.1" (0 : Nat)
    Demo.eight "10:00:01" "0" "1234" "root" "1.50" "2.25" "0.00" "3.75" 1234
    (150, 2) (225, 2) (0, 2) (375, 2) (by decide) rfl rfl rfl rfl rfl
  ⟨by decide, h.1, h.2.1⟩

/-! ## Racing accessors -/

theorem complete_of_body {α σ : Type} (acc : Registry α σ → Option Nat × Registry α σ)
    (name : String)
    (hacc : ∀ r, acc r =
      match r.get name with
      | some t => (some t, r)
      | none =>
        ((r.store name (newTask name (channelLen * 5) (second * 5) channelLen)).get name,
          r.store name (newTask name (channelLen * 5) (second * 5) channelLen)))
    (r : Registry α σ) :
    Race.complete name 3 r Caller.entered = some (acc r) := by
  rw [hacc r]
  cases hg : r.get name with
  | some p => simp [Race.complete, accessStep, hg]
  | none => simp [Race.complete, accessStep, hg]

/-- C12 as stated fails. Two callers enter `CPUTask` on the empty registry; both read the
map before either writes it, so both find "cpu" absent. The first stores its task and
returns it (pointer 0), then the second stores its own task and returns that one
(pointer 1): two task objects exist and the callers hold different tasks. -/
theorem racing_first_access_counterexample :
    (Race.run "cpu" (⟨Registry.empty, [Caller.entered, Caller.entered]⟩ : Race Nat Unit)
        [0, 1, 0, 0, 1, 1]).map
      (fun st => (st.callers, st.registry.heap.length, st.registry.tasks)) =
    some ([Caller.returned (some 0), Caller.returned (some 1)], 2, [("cpu", 1)]) := by
  decide

/-- C12 (amended). Run alone, the statements of an accessor do what the accessor function
does (`CPUTask`, `MemoryTask`, `IOTask`). When the first accesses of two callers for a
name do not overlap (the first call returns before the second begins), one task is
created for an unregistered name, none for a registered one, and both callers receive
the same task. -/
theorem first_access_without_overlap {α σ : Type} (r : Registry α σ) :
    (Race.complete "cpu" 3 r Caller.entered = some (CPUTask r) ∧
     Race.complete "memory" 3 r Caller.entered = some (MemoryTask r) ∧
     Race.complete "io" 3 r Caller.entered = some (IOTask r)) ∧
    ∀ name : String,
      (r.get name = none →
        Race.run name ⟨r, [Caller.entered, Caller.entered]⟩ [0, 0, 0, 1] =
          some ⟨r.store name (newTask name 5120 5000000000 1024),
            [Caller.returned (some r.heap.length),
             Caller.returned (some r.heap.length)]⟩) ∧
      (∀ p, r.get name = some p →
        Race.run name ⟨r, [Caller.entered, Caller.entered]⟩ [0, 1] =
          some ⟨r, [Caller.returned (some p), Caller.returned (some p)]⟩) := by
  refine ⟨⟨?_, ?_, ?_⟩, ?_⟩
  · exact complete_of_body CPUTask "cpu" (fun _ => rfl) r
  · exact complete_of_body MemoryTask "memory" (fun _ => rfl) r
  · exact complete_of_body IOTask "io" (fun _ => rfl) r
  · intro name
    constructor
    · intro hg
      simp [Race.run, Race.step, accessStep, hg, Registry.get_store_same,
        Registry.newTask_args]
    · intro p hg
      simp [Race.run, Race.step, accessStep, hg]

theorem first_access_without_overlap_witness :
    (Registry.empty : Registry Nat Unit).get "cpu" = none ∧
    Race.run "cpu" (⟨Registry.empty, [Caller.entered, Caller.entered]⟩ : Race Nat Unit)
        [0, 0, 0, 1] =
      some ⟨Registry.empty.store "cpu" (newTask "cpu" 5120 5000000000 1024),
        [Caller.returned (some 0), Caller.returned (some 0)]⟩ :=
  ⟨rfl, ((first_access_without_overlap (Registry.empty : Registry Nat Unit)).2 "cpu").1 rfl⟩

/-! ## Shutdown -/

namespace Sys

variable {α σ : Type}

theorem acked_call (tr : List (Effect α)) (src : Event) (b : List α) (r : Outcome) :
    acked (tr ++ [Effect.call src b r]) = acked tr := by
  simp [acked]

theorem acked_ack (tr : List (Effect α)) :
    acked (tr ++ [Effect.ack ⟨[()], 1, true⟩]) = true := by
  simp [acked, Chan.recv]

/-- An item arrival or a timer tick at a live task leaves it live, with the same close
channel and the same flow. -/
theorem step_live [Inhabited α] (s s1 : Sys α σ) (e : Event) (he : e ≠ Event.close)
    (hlive : s.live) (h : s.step e = some s1) :
    s1.live ∧ s1.task.close = s.task.close ∧ s1.flow = s.flow := by
  obtain ⟨hrun, hopen, hack, f, hf⟩ := hlive
  have hna : noClose [(Action.loop e : Action α)] = true := by
    cases e <;> simp [noClose] at he ⊢
  have hx : s.exec (Action.loop e) = some s1 := h
  obtain ⟨a1, a2, a3, a4, a5, _⟩ := exec_noClose_flow s s1 (Action.loop e) f hna hrun hopen hf hx
  have hpub : published [(Action.loop e : Action α)] = ([] : List α) := by
    simp [published]
  rw [hpub, List.append_nil] at a5
  refine ⟨⟨a1, a2, ?_, f, a3⟩, a4, a5⟩
  cases e with
  | close => exact absurd rfl he
  | collect =>
    obtain ⟨x, rest, _, rfl⟩ := exec_collect_open s s1 hopen hx
    by_cases hc : 0 < s.task.maxDataLen ∧
        s.task.maxDataLen ≤ (s.task.data.length : Int) + 1
    · rw [onCollect_flush s x _ f hf hc]
      simpa [acked_call] using hack
    · rw [onCollect_keep s x _ hc]
      exact hack
  | tick =>
    have h1 := exec_tick s s1 hx
    subst h1
    by_cases hd : s.task.data = []
    · rw [onTick_idle s hd]
      exact hack
    · rw [onTick_flush s f hf hd]
      simpa [acked_call] using hack

/-- The close case at a live task that holds the request of `ShutDown`. -/
theorem step_close_pending [Inhabited α] (s : Sys α σ) (hlive : s.live)
    (hcl : s.task.close = ⟨[Chan.make 1], 1, false⟩) :
    ∃ s1, s.step Event.close = some s1 ∧ s1.status = Status.returned ∧
      s1.task.collect.closed = true ∧ s1.task.collect.buf = [] ∧
      acked s1.trace = true ∧ (batches s1.trace).flatten = s.flow := by
  obtain ⟨hrun, hopen, _, f, hf⟩ := hlive
  refine ⟨_, step_close_cons s (Chan.make 1) [] hrun (by rw [hcl]), ?_⟩
  rw [onClose_open s f _ _ hf hopen]
  split
  · rw [acknowledge_fresh]
    refine ⟨rfl, rfl, rfl, acked_ack _, ?_⟩
    simp [batches, List.filterMap_append, flow]
  · rename_i hlen
    have hnil : s.task.data ++ s.task.collect.buf = [] := by
      cases hp : s.task.data ++ s.task.collect.buf with
      | nil => rfl
      | cons y ys => simp [hp] at hlen
    rw [acknowledge_fresh]
    refine ⟨rfl, rfl, rfl, acked_ack _, ?_⟩
    simp only [batches, List.filterMap_append, flow, List.append_assoc, hnil,
      List.append_nil]
    simp

/-- Without a pending request the close case is not ready. -/
theorem step_close_idle [Inhabited α] (s : Sys α σ) (hcl : s.task.close = Chan.make 1) :
    s.step Event.close = none := by
  simp [step, hcl, Chan.make, Chan.recv]

theorem pub_open (t : Task α σ) (x : α) (hopen : t.collect.closed = false) :
    t.Pub x = PubResult.blocked ∨
    t.Pub x = PubResult.returned none
      { t with collect := { t.collect with buf := t.collect.buf ++ [x] } } := by
  unfold Task.Pub Chan.send
  by_cases hlt : t.collect.buf.length < t.collect.cap
  · right
    simp [hopen, hlt]
  · left
    simp [hopen, hlt]

end Sys

namespace Node

variable {α σ : Type}

/-- A `Pub` at a live task is accepted: the item joins the queue and the accepted items. -/
theorem exec_pub_live [Inhabited α] (n n1 : Node α σ) (x : α) (hlive : n.sys.live)
    (h : n.exec (NodeAction.pub x) = some n1) :
    n1.closer = n.closer ∧ n1.requests = n.requests ∧ n1.sent = n.sent ++ [x] ∧
    n1.sys.live ∧ n1.sys.task.close = n.sys.task.close ∧
    n1.sys.flow = n.sys.flow ++ [x] := by
  obtain ⟨hrun, hopen, hack, f, hf⟩ := hlive
  simp only [exec] at h
  rcases Sys.pub_open n.sys.task x hopen with hp | hp
  · rw [hp] at h
    exact absurd h (by simp)
  · rw [hp] at h
    simp only [Option.some.injEq] at h
    subst h
    exact ⟨rfl, rfl, rfl, ⟨hrun, hopen, hack, f, hf⟩, rfl, by simp [Sys.flow]⟩

/-- A `Pub` at a task whose queue is closed is refused and changes nothing. -/
theorem exec_pub_closed [Inhabited α] (n n1 : Node α σ) (x : α)
    (hcl : n.sys.task.collect.closed = true)
    (h : n.exec (NodeAction.pub x) = some n1) : n1 = n := by
  simp only [exec, Sys.pub_closed n.sys.task x hcl, Option.some.injEq] at h
  exact h.symm

theorem drained_of_eq (s0 : Sys α σ) (n n1 : Node α σ) (hs : n1.sys = n.sys)
    (hsent : n1.sent = n.sent) (h : n.drained s0) : n1.drained s0 := by
  unfold drained at h ⊢
  rw [hs, hsent]
  exact h

/-- Every action at a task keeps the invariant of `ShutDown`. -/
theorem exec_inv [Inhabited α] (s0 : Sys α σ) (n n1 : Node α σ) (a : NodeAction α)
    (hinv : n.inv s0) (h : n.exec a = some n1) : n1.inv s0 := by
  cases hc : n.closer with
  | sleeping =>
    simp only [inv, hc] at hinv
    obtain ⟨hreq, hlive, hclose, hflow⟩ := hinv
    cases a with
    | pub x =>
      obtain ⟨b1, b2, b3, b4, b5, b6⟩ := exec_pub_live n n1 x hlive h
      simp only [inv, b1, hc]
      exact ⟨b2.trans hreq, b4, b5.trans hclose, by rw [b6, hflow, b3, List.append_assoc]⟩
    | loop e =>
      simp only [exec, Option.map_eq_some'] at h
      obtain ⟨s1, hs1, rfl⟩ := h
      by_cases he : e = Event.close
      · subst he
        rw [Sys.step_close_idle n.sys hclose] at hs1
        exact absurd hs1 (by simp)
      · obtain ⟨c1, c2, c3⟩ := Sys.step_live n.sys s1 e he hlive hs1
        simp only [inv, hc]
        exact ⟨hreq, c1, c2.trans hclose, c3.trans hflow⟩
    | request =>
      simp only [exec, hc, hclose, Chan.make, Chan.send, Bool.false_eq_true, if_false,
        List.length_nil, Nat.lt_one_iff, pos_of_gt, if_true, Option.some.injEq,
        List.nil_append] at h
      subst h
      simp only [inv]
      exact ⟨by rw [hreq], Or.inl ⟨hlive, rfl, hflow⟩⟩
    | join =>
      simp [exec, hc] at h
  | waiting =>
    simp only [inv, hc] at hinv
    obtain ⟨hreq, hpend | hdr⟩ := hinv
    · obtain ⟨hlive, hclose, hflow⟩ := hpend
      cases a with
      | pub x =>
        obtain ⟨b1, b2, b3, b4, b5, b6⟩ := exec_pub_live n n1 x hlive h
        simp only [inv, b1, hc]
        exact ⟨b2.trans hreq,
          Or.inl ⟨b4, b5.trans hclose, by rw [b6, hflow, b3, List.append_assoc]⟩⟩
      | loop e =>
        simp only [exec, Option.map_eq_some'] at h
        obtain ⟨s1, hs1, rfl⟩ := h
        by_cases he : e = Event.close
        · subst he
          obtain ⟨s2, d1, d2, d3, d4, d5, d6⟩ := Sys.step_close_pending n.sys hlive hclose
          rw [d1] at hs1
          simp only [Option.some.injEq] at hs1
          subst hs1
          simp only [inv, hc]
          exact ⟨hreq, Or.inr ⟨d2, d3, d4, d5, d6.trans hflow⟩⟩
        · obtain ⟨c1, c2, c3⟩ := Sys.step_live n.sys s1 e he hlive hs1
          simp only [inv, hc]
          exact ⟨hreq, Or.inl ⟨c1, c2.trans hclose, c3.trans hflow⟩⟩
      | request => simp [exec, hc] at h
      | join =>
        simp only [exec, hc, hlive.2.2.1, Bool.false_eq_true, if_false] at h
        exact absurd h (by simp)
    · cases a with
      | pub x =>
        have := exec_pub_closed n n1 x hdr.2.1 h
        subst this
        simp only [inv, hc]
        exact ⟨hreq, Or.inr hdr⟩
      | loop e =>
        simp only [exec, Sys.step_stopped n.sys (by rw [hdr.1]; simp) e,
          Option.map_none'] at h
        exact absurd h (by simp)
      | request => simp [exec, hc] at h
      | join =>
        simp only [exec, hc, hdr.2.2.2.1, if_true, Option.some.injEq] at h
        subst h
        simp only [inv]
        exact ⟨hreq, hdr⟩
  | done =>
    simp only [inv, hc] at hinv
    obtain ⟨hreq, hdr⟩ := hinv
    cases a with
    | pub x =>
      have := exec_pub_closed n n1 x hdr.2.1 h
      subst this
      simp only [inv, hc]
      exact ⟨hreq, hdr⟩
    | loop e =>
      simp only [exec, Sys.step_stopped n.sys (by rw [hdr.1]; simp) e,
        Option.map_none'] at h
      exact absurd h (by simp)
    | request => simp [exec, hc] at h
    | join => simp [exec, hc] at h

end Node

/-- The invariant holds at every task along every execution during `ShutDown`. -/
theorem runFleet_inv {α σ : Type} [Inhabited α] (tasks : List (Sys α σ))
    (sched : List (Nat × NodeAction α)) (nodes nodes1 : List (Node α σ))
    (hlen : nodes.length = tasks.length)
    (hinv : ∀ (i : Nat) (s0 : Sys α σ) (n : Node α σ), tasks[i]? = some s0 → nodes[i]? = some n → n.inv s0)
    (h : runFleet nodes sched = some nodes1) :
    nodes1.length = tasks.length ∧
    ∀ (i : Nat) (s0 : Sys α σ) (n : Node α σ), tasks[i]? = some s0 → nodes1[i]? = some n → n.inv s0 := by
  induction sched generalizing nodes with
  | nil =>
    simp only [runFleet, Option.some.injEq] at h
    subst h
    exact ⟨hlen, hinv⟩
  | cons step rest ih =>
    obtain ⟨i, a⟩ := step
    simp only [runFleet] at h
    cases hn : nodes[i]? with
    | none => simp [hn] at h
    | some n =>
      rw [hn] at h
      simp only at h
      cases hx : n.exec a with
      | none => simp [hx] at h
      | some n1 =>
        rw [hx] at h
        simp only [Option.some_bind] at h
        apply ih (nodes.set i n1) (by rw [List.length_set]; exact hlen) _ h
        intro j s0 m hs0 hm
        rw [List.getElem?_set] at hm
        by_cases hij : i = j
        · subst hij
          rw [if_pos rfl] at hm
          split at hm
          · simp only [Option.some.injEq] at hm
            subst hm
            exact Node.exec_inv s0 n _ a (hinv i s0 n hs0 hn) hx
          · exact absurd hm (by simp)
        · rw [if_neg hij] at hm
          exact hinv j s0 m hs0 hm

/-- C11. `ShutDown` is called while every registered task is live (its loop runs, its
queue is open, no close request is pending, a consumer is installed). Publishers, the
loops and the goroutines of `ShutDown` then interleave in any way. When `ShutDown` has
returned, every registered task has been sent exactly one close request and has
acknowledged it, its loop has returned, its queue is closed and empty, and the batches
handed to its consumer (whether the call returned or faulted), in order, are exactly the
items the task held when `ShutDown` was called followed by the items `Pub` accepted
since. -/
theorem shutdown_drains_every_task {α σ : Type} [Inhabited α] (tasks : List (Sys α σ))
    (sched : List (Nat × NodeAction α)) (nodes : List (Node α σ))
    (hlive : ∀ s ∈ tasks, s.live ∧ s.task.close = Chan.make 1)
    (h : runFleet (ShutDown tasks) sched = some nodes)
    (hret : ShutDown.returned nodes = true) :
    nodes.length = tasks.length ∧
    ∀ (i : Nat) (s0 : Sys α σ) (n : Node α σ), tasks[i]? = some s0 → nodes[i]? = some n →
      n.requests = 1 ∧ acked n.sys.trace = true ∧
      n.sys.status = Status.returned ∧
      n.sys.task.collect.closed = true ∧ n.sys.task.collect.buf = [] ∧
      (Sys.batches n.sys.trace).flatten = s0.flow ++ n.sent := by
  have h0 : ∀ (i : Nat) (s0 : Sys α σ) (n : Node α σ), tasks[i]? = some s0 → (ShutDown tasks)[i]? = some n → n.inv s0 := by
    intro i s0 n hs0 hn
    simp only [ShutDown, List.getElem?_map, hs0, Option.map_some', Option.some.injEq] at hn
    subst hn
    obtain ⟨h1, h2⟩ := hlive s0 (List.getElem?_mem hs0)
    simp only [Node.inv]
    exact ⟨trivial, h1, h2, by simp⟩
  obtain ⟨hlen, hinv⟩ := runFleet_inv tasks sched (ShutDown tasks) nodes
    (by simp [ShutDown]) h0 h
  refine ⟨hlen, ?_⟩
  intro i s0 n hs0 hn
  have hdone : n.closer = Closer.done := by
    have := List.all_eq_true.mp hret n (List.getElem?_mem hn)
    simpa using this
  have hi := hinv i s0 n hs0 hn
  simp only [Node.inv, hdone] at hi
  obtain ⟨hreq, d1, d2, d3, d4, d5⟩ := hi
  exact ⟨hreq, d4, d1, d2, d3, d5⟩

theorem shutdown_drains_every_task_witness :
    ∃ nodes, runFleet (ShutDown [Demo.start 2 Demo.accept, Demo.start 4 Demo.reject])
        Demo.shutdown = some nodes ∧
      ShutDown.returned nodes = true ∧
      nodes.map (fun n => (n.requests, n.sent, Sys.batches n.sys.trace)) =
        [(1, [1, 2], [[1, 2]]), (1, [5], [[5]])] ∧
      nodes.length = 2 := by
  have hs : (runFleet (ShutDown [Demo.start 2 Demo.accept, Demo.start 4 Demo.reject])
      Demo.shutdown).isSome = true := by decide
  have hr : (runFleet (ShutDown [Demo.start 2 Demo.accept, Demo.start 4 Demo.reject])
      Demo.shutdown).map ShutDown.returned = some true := by decide
  have hv : (runFleet (ShutDown [Demo.start 2 Demo.accept, Demo.start 4 Demo.reject])
      Demo.shutdown).map
        (fun ns => ns.map (fun n => (n.requests, n.sent, Sys.batches n.sys.trace))) =
      some [(1, [1, 2], [[1, 2]]), (1, [5], [[5]])] := by decide
  obtain ⟨nodes, h⟩ := Option.isSome_iff_exists.mp hs
  rw [h] at hr hv
  have hret : ShutDown.returned nodes = true := by simpa using hr
  have hlive : ∀ s ∈ [Demo.start 2 Demo.accept, Demo.start 4 Demo.reject],
      s.live ∧ s.task.close = Chan.make 1 := by
    intro s hmem
    simp only [List.mem_cons, List.mem_singleton, List.not_mem_nil, or_false] at hmem
    rcases hmem with rfl | rfl
    · exact ⟨⟨rfl, rfl, rfl, _, rfl⟩, rfl⟩
    · exact ⟨⟨rfl, rfl, rfl, _, rfl⟩, rfl⟩
  exact ⟨nodes, h, hret, by simpa using hv,
    (shutdown_drains_every_task _ Demo.shutdown nodes hlive h hret).1⟩

end Moniter
